import Mathlib

/-!
# The inference-graph executor

A shallow embedding of `executor/predictor/predictor_process.go` (the graph
engine), of `executor/api/rest/client.go` (the JSON REST backend client) and
of the two frontends (`executor/api/rest/rest_server.go` and
`executor/api/grpc/seldon_grpc_server.go`), followed by the theorems that
settle the specification's claims about them.

Conventions of the embedding.

* A Go `(payload, error)` pair is a pair of options: `none` is `nil`.
* A run of engine code is a `Run`: how it ended (`Outcome.ret` with the returned
  value, or `Outcome.panic` for a Go run-time panic such as an index out of
  range) together with the backend calls it issued, in order (`log`).
* The backend client is an interface in the source.  It is a record of
  functions here: a backend's reply is determined by the arguments of the call.
* The goroutines of a fan-out are scheduled by an oracle, which fixes the
  order in which they complete and the order in which their backend calls
  interleave: the engine is proved correct for every schedule.
-/

namespace Executor

/-! ## Data model -/

/-- Modelled from the spec: the `payload` package is not among the sources.  A
payload is a body together with its content-type tag (`payload.BytesPayload`
with fields `Msg` and `ContentType`); Go byte slices are strings here. -/
structure Payload where
  Msg : String
  ContentType : String
deriving DecidableEq, Repr

/-- The interface type `payload.SeldonPayload`; `none` is the nil interface. -/
abbrev SeldonPayload := Option Payload

/-- A Go `error`; `none` is `nil`, `some s` an error with message `s`. -/
abbrev GoError := Option String

/-- A Go `(payload.SeldonPayload, error)` result pair. -/
abbrev Reply := SeldonPayload × GoError

/-- Modelled from the spec: `v1.PredictiveUnitType`, the role of a node. -/
inductive PredictiveUnitType where
  | UNKNOWN_TYPE
  | ROUTER
  | COMBINER
  | MODEL
  | TRANSFORMER
  | OUTPUT_TRANSFORMER
deriving DecidableEq, Repr

/-- Modelled from the spec: `v1.PredictiveUnitMethod`, a declared capability. -/
inductive PredictiveUnitMethod where
  | TRANSFORM_INPUT
  | TRANSFORM_OUTPUT
  | ROUTE
  | AGGREGATE
deriving DecidableEq, Repr

/-- Modelled from the spec: `v1.PredictiveUnitImplementation`, the optional
implementation tag; only `RANDOM_ABTEST` is inspected by the engine. -/
inductive PredictiveUnitImplementation where
  | RANDOM_ABTEST
  | other (tag : String)
deriving DecidableEq, Repr

/-- Modelled from the spec: `v1.Endpoint`, the address of one backend. -/
structure Endpoint where
  ServiceHost : String
  ServicePort : Int
deriving DecidableEq, Repr

/-- Modelled from the spec: `v1.PredictiveUnit`, a node of the inference graph.
`Type_` (the field `Type`), `Implementation` and `Methods` are pointers in the source (`none` is
`nil`); `Children` is a slice (nil and empty are both `[]`). -/
inductive PredictiveUnit where
  | mk (Name : String) (Children : List PredictiveUnit)
      (Type_ : Option PredictiveUnitType)
      (Implementation : Option PredictiveUnitImplementation)
      (Methods : Option (List PredictiveUnitMethod))
      (Endpoint : Endpoint)

namespace PredictiveUnit

/-- Field `Name`. -/
def Name : PredictiveUnit → String
  | mk n _ _ _ _ _ => n

/-- Field `Children`. -/
def Children : PredictiveUnit → List PredictiveUnit
  | mk _ cs _ _ _ _ => cs

/-- Field `Type` (a reserved word, hence the underscore). -/
def Type_ : PredictiveUnit → Option PredictiveUnitType
  | mk _ _ t _ _ _ => t

/-- Field `Implementation`. -/
def Implementation : PredictiveUnit → Option PredictiveUnitImplementation
  | mk _ _ _ i _ _ => i

/-- Field `Methods`. -/
def Methods : PredictiveUnit → Option (List PredictiveUnitMethod)
  | mk _ _ _ _ ms _ => ms

/-- Field `Endpoint`. -/
def Endpoint : PredictiveUnit → Executor.Endpoint
  | mk _ _ _ _ _ e => e

end PredictiveUnit

/-! ## Backend calls and runs -/

/-- One call on the backend client, with the arguments the engine passed. -/
inductive Call where
  | Predict (host : String) (port : Int) (msg : SeldonPayload)
  | TransformInput (host : String) (port : Int) (msg : SeldonPayload)
  | TransformOutput (host : String) (port : Int) (msg : SeldonPayload)
  | Route (host : String) (port : Int) (msg : SeldonPayload)
  | Combine (host : String) (port : Int) (msgs : List SeldonPayload)
deriving DecidableEq, Repr

/-- The endpoint a call was issued on. -/
def Call.endpoint : Call → Endpoint
  | .Predict h p _ => ⟨h, p⟩
  | .TransformInput h p _ => ⟨h, p⟩
  | .TransformOutput h p _ => ⟨h, p⟩
  | .Route h p _ => ⟨h, p⟩
  | .Combine h p _ => ⟨h, p⟩

/-- How a piece of Go code ended: it returned `a`, or it panicked. -/
inductive Outcome (α : Type) where
  | ret (a : α)
  | panic
deriving DecidableEq, Repr

/-- A run: its outcome and the backend calls it issued, oldest first. -/
structure Run (α : Type) where
  out : Outcome α
  log : List Call
deriving DecidableEq, Repr

/-- A run that returns `a` without calling a backend. -/
def Run.pure {α : Type} (a : α) : Run α := ⟨.ret a, []⟩

/-- Sequencing: run `r`, then `f` on what it returned; a panic ends the run. -/
def Run.bind {α β : Type} (r : Run α) (f : α → Run β) : Run β :=
  match r.out with
  | .panic => ⟨.panic, r.log⟩
  | .ret a => ⟨(f a).out, r.log ++ (f a).log⟩

/-- The interface `client.SeldonApiClient`, as `predictor_process.go` uses it. -/
structure SeldonApiClient where
  Predict : String → Int → SeldonPayload → Reply
  TransformInput : String → Int → SeldonPayload → Reply
  TransformOutput : String → Int → SeldonPayload → Reply
  Route : String → Int → SeldonPayload → Int × GoError
  Combine : String → Int → List SeldonPayload → Reply

/-- The struct `PredictorProcess` (its logger is not modelled). -/
structure PredictorProcess where
  Client : SeldonApiClient

/-- What the engine does not determine: for the fan-out of a node, the time at
which the goroutine of child `i` completes; the draw of the random source
used by the A/B-test router; and, at step `k` of the fan-out of a node, which
goroutine takes the turn (`pick node k`, counted among the goroutines that
still have a call to make, in child order, followed by those that have made
their calls and are about to panic). -/
structure Oracle where
  completion : PredictiveUnit → Nat → Nat
  draw : PredictiveUnit → Nat
  pick : PredictiveUnit → Nat → Nat

/-- The call `p.Client.Predict(host, port, msg)`. -/
def PredictorProcess.Predict (p : PredictorProcess) (e : Endpoint) (msg : SeldonPayload) :
    Run Reply :=
  ⟨.ret (p.Client.Predict e.ServiceHost e.ServicePort msg),
    [.Predict e.ServiceHost e.ServicePort msg]⟩

/-- The call `p.Client.TransformInput(host, port, msg)`. -/
def PredictorProcess.TransformInput (p : PredictorProcess) (e : Endpoint)
    (msg : SeldonPayload) : Run Reply :=
  ⟨.ret (p.Client.TransformInput e.ServiceHost e.ServicePort msg),
    [.TransformInput e.ServiceHost e.ServicePort msg]⟩

/-- The call `p.Client.TransformOutput(host, port, msg)`. -/
def PredictorProcess.TransformOutput (p : PredictorProcess) (e : Endpoint)
    (msg : SeldonPayload) : Run Reply :=
  ⟨.ret (p.Client.TransformOutput e.ServiceHost e.ServicePort msg),
    [.TransformOutput e.ServiceHost e.ServicePort msg]⟩

/-- The call `p.Client.Route(host, port, msg)`. -/
def PredictorProcess.Route (p : PredictorProcess) (e : Endpoint) (msg : SeldonPayload) :
    Run (Int × GoError) :=
  ⟨.ret (p.Client.Route e.ServiceHost e.ServicePort msg),
    [.Route e.ServiceHost e.ServicePort msg]⟩

/-- The call `p.Client.Combine(host, port, msgs)`. -/
def PredictorProcess.Combine (p : PredictorProcess) (e : Endpoint)
    (msgs : List SeldonPayload) : Run Reply :=
  ⟨.ret (p.Client.Combine e.ServiceHost e.ServicePort msgs),
    [.Combine e.ServiceHost e.ServicePort msgs]⟩

/-! ## The engine (`predictor_process.go`) -/

/-- The function `hasMethod`: is `method` in the (possibly nil) list? -/
def hasMethod (method : PredictiveUnitMethod) :
    Option (List PredictiveUnitMethod) → Bool
  | none => false
  | some ms => ms.any (fun m => m == method)

/-- The method `transformInput`. -/
def transformInput (p : PredictorProcess) (node : PredictiveUnit) (msg : SeldonPayload) :
    Run Reply :=
  match node.Type_ with
  | some .MODEL => p.Predict node.Endpoint msg
  | some .TRANSFORMER => p.TransformInput node.Endpoint msg
  | _ =>
    if hasMethod .TRANSFORM_INPUT node.Methods then p.TransformInput node.Endpoint msg
    else Run.pure (msg, none)

/-- The method `transformOutput`. -/
def transformOutput (p : PredictorProcess) (node : PredictiveUnit) (msg : SeldonPayload) :
    Run Reply :=
  match node.Type_ with
  | some .OUTPUT_TRANSFORMER => p.TransformOutput node.Endpoint msg
  | _ =>
    if hasMethod .TRANSFORM_OUTPUT node.Methods then p.TransformOutput node.Endpoint msg
    else Run.pure (msg, none)

/-- Modelled from the spec: the method `abTestRouter` is not among the sources.
The spec has it return an engine-computed index selected at random over the
children of the node; the random draw is taken from the oracle. -/
def abTestRouter (w : Oracle) (node : PredictiveUnit) : Run (Int × GoError) :=
  Run.pure (Int.ofNat (w.draw node % node.Children.length), none)

/-- The method `route`. -/
def route (p : PredictorProcess) (w : Oracle) (node : PredictiveUnit) (msg : SeldonPayload) :
    Run (Int × GoError) :=
  match node.Type_ with
  | some .ROUTER => p.Route node.Endpoint msg
  | _ =>
    if hasMethod .ROUTE node.Methods then p.Route node.Endpoint msg
    else if node.Implementation = some .RANDOM_ABTEST then abTestRouter w node
    else Run.pure (-1, none)

/-- The method `aggregate`; `msg[0]` panics on an empty slice. -/
def aggregate (p : PredictorProcess) (node : PredictiveUnit) (msg : List SeldonPayload) :
    Run Reply :=
  match node.Type_ with
  | some .COMBINER => p.Combine node.Endpoint msg
  | _ =>
    if hasMethod .AGGREGATE node.Methods then p.Combine node.Endpoint msg
    else
      match msg with
      | [] => ⟨.panic, []⟩
      | m :: _ => Run.pure (m, none)

/-- The order in which the `n` goroutines of a fan-out complete: by completion
time, earlier first (ties by child index). -/
def completionOrder (times : Nat → Nat) (n : Nat) : List Nat :=
  (List.range n).insertionSort (fun i j => times i ≤ times j)

/-- The assignment `cmsgs[i], errs[i] = p.Execute(&nodeChild, msg)` made by the
goroutine of child `i`, whose call of `Execute` is the run `runs[i]`. -/
def writeSlot (runs : List (Run Reply)) (s : List SeldonPayload × List GoError) (i : Nat) :
    List SeldonPayload × List GoError :=
  match runs[i]? with
  | some ⟨.ret (m, e), _⟩ => (s.1.set i m, s.2.set i e)
  | _ => s

/-- A goroutine of a fan-out as the scheduler sees it: the backend calls it has
still to make, in order, and whether it panics once it has made them. -/
structure Routine where
  todo : List Call
  panics : Bool
deriving DecidableEq, Repr

/-- The goroutine that runs `Execute` on a child, that call being the run `r`. -/
def Routine.ofRun (r : Run Reply) : Routine :=
  ⟨r.log, decide (r.out = .panic)⟩

/-- The next call of the `n`-th of the goroutines that still have a call to
make, with the goroutines as they are once that call is made; `none` when
there is no such goroutine. -/
def nextCall : Nat → List Routine → Option (Call × List Routine)
  | _, [] => none
  | n, ⟨[], b⟩ :: rs => (nextCall n rs).map fun x => (x.1, ⟨[], b⟩ :: x.2)
  | 0, ⟨c :: l, b⟩ :: rs => some (c, ⟨l, b⟩ :: rs)
  | n + 1, ⟨c :: l, b⟩ :: rs => (nextCall n rs).map fun x => (x.1, ⟨c :: l, b⟩ :: x.2)

/-- The backend calls of concurrent goroutines in the order in which they are
made.  At step `k` the turn goes to the goroutine that `pick k` selects among
those that still have a call to make, in child order, followed by those that
have made their calls and are about to panic: the former makes its next call,
the latter panics, which ends the process.  The steps end when no goroutine
is left to take a turn.  `fuel` bounds the number of calls (the number of
calls still to make is enough). -/
def interleave (pick : Nat → Nat) : Nat → Nat → List Routine → List Call
  | 0, _, _ => []
  | fuel + 1, k, rs =>
    match nextCall (pick k % ((rs.filter fun r => !r.todo.isEmpty).length
        + (rs.filter fun r => r.todo.isEmpty && r.panics).length)) rs with
    | none => []
    | some (c, rs') => c :: interleave pick fuel (k + 1) rs'

/-- The backend calls made while the runs `runs` go on concurrently, in the
order in which they are made. -/
def concurrentLog (pick : Nat → Nat) (runs : List (Run Reply)) : List Call :=
  interleave pick (runs.map fun r => r.log.length).sum 0 (runs.map Routine.ofRun)

/-- The fan-out of `routeChildren` up to `wg.Wait()`: both slices are made with
one nil slot per child, one goroutine per child runs `Execute` (the run
`runs[i]` for child `i`) and fills its slot; the goroutines complete in the
order given by `times`, and their backend calls interleave as `pick` says.
A panic in a goroutine ends the process. -/
def fanOut (times : Nat → Nat) (pick : Nat → Nat) (runs : List (Run Reply)) :
    Run (List SeldonPayload × List GoError) :=
  let order := completionOrder times runs.length
  let log := concurrentLog pick runs
  if runs.any (fun r => r.out = .panic) then ⟨.panic, log⟩
  else
    ⟨.ret (order.foldl (writeSlot runs)
      (List.replicate runs.length none, List.replicate runs.length none)), log⟩

/-- The loop `for i, err := range errs { if err != nil { return cmsgs[i], err } }`:
the reply it returns, or `none` when it falls through. -/
def firstError : List SeldonPayload → List GoError → Option Reply
  | m :: _, some err :: _ => some (m, some err)
  | _ :: ms, none :: es => firstError ms es
  | _, _ => none

/-- The call `p.Execute(&node.Children[route], msg)` of the routed branch, the
call of `Execute` on child `i` being the run `runs[i]`: indexing outside the
slice panics. -/
def routed (runs : List (Run Reply)) (route : Int) : Run Reply :=
  if route < 0 ∨ (runs.length : Int) ≤ route then ⟨.panic, []⟩
  else runs.getD route.toNat ⟨.panic, []⟩

/-- The method `routeChildren`, the calls `p.Execute(child_i, msg)` it may make
being given as `runs` (one run per child, in child order). -/
def routeChildrenWith (p : PredictorProcess) (w : Oracle) (node : PredictiveUnit)
    (msg : SeldonPayload) (runs : List (Run Reply)) : Run Reply :=
  if node.Children.length > 0 then
    (route p w node msg).bind fun r =>
      match r.2 with
      | some err => Run.pure (none, some err)
      | none =>
        if r.1 = -1 then
          (fanOut (w.completion node) (w.pick node) runs).bind fun s =>
            match firstError s.1 s.2 with
            | some reply => Run.pure reply
            | none => aggregate p node s.1
        else
          (routed runs r.1).bind fun c =>
            match c.2 with
            | some err => Run.pure (c.1, some err)
            | none => aggregate p node [c.1]
  else Run.pure (msg, none)

/-- The method `Execute`, the calls of `Execute` that its `routeChildren` may
make on the children with payload `m` being given as `kids m`. -/
def ExecuteWith (p : PredictorProcess) (w : Oracle) (node : PredictiveUnit)
    (msg : SeldonPayload) (kids : SeldonPayload → List (Run Reply)) : Run Reply :=
  (transformInput p node msg).bind fun t =>
    match t.2 with
    | some err => Run.pure (t.1, some err)
    | none =>
      (routeChildrenWith p w node t.1 (kids t.1)).bind fun c =>
        match c.2 with
        | some err => Run.pure (t.1, some err)
        | none => transformOutput p node c.1

mutual
/-- The method `Execute`, by recursion on the graph. -/
def Execute (p : PredictorProcess) (w : Oracle) : PredictiveUnit → SeldonPayload → Run Reply
  | .mk n cs t i ms e, msg => ExecuteWith p w (.mk n cs t i ms e) msg (executeAll p w cs)
/-- The runs of `Execute` on each node of a list, in order. -/
def executeAll (p : PredictorProcess) (w : Oracle) :
    List PredictiveUnit → SeldonPayload → List (Run Reply)
  | [], _ => []
  | c :: cs, msg => Execute p w c msg :: executeAll p w cs msg
end

/-- The method `routeChildren`. -/
def routeChildren (p : PredictorProcess) (w : Oracle) (node : PredictiveUnit)
    (msg : SeldonPayload) : Run Reply :=
  routeChildrenWith p w node msg (executeAll p w node.Children msg)

/-! ## Vocabulary for stating properties of runs -/

/-- The payload a run of `Execute` returned (`nil` for a panic). -/
def Run.payload (r : Run Reply) : SeldonPayload :=
  match r.out with
  | .ret a => a.1
  | .panic => none

/-- The error a run of `Execute` returned (`nil` for a panic). -/
def Run.err (r : Run Reply) : GoError :=
  match r.out with
  | .ret a => a.2
  | .panic => none

/-- The error the backend client returned for a call. -/
def PredictorProcess.errOf (p : PredictorProcess) : Call → GoError
  | .Predict h q m => (p.Client.Predict h q m).2
  | .TransformInput h q m => (p.Client.TransformInput h q m).2
  | .TransformOutput h q m => (p.Client.TransformOutput h q m).2
  | .Route h q m => (p.Client.Route h q m).2
  | .Combine h q ms => (p.Client.Combine h q ms).2

/-- The backend calls of a whole fan-out of `node` with payload `msg`: those of
the runs of `Execute` on the children, interleaved as the oracle says. -/
def fanOutLog (p : PredictorProcess) (w : Oracle) (node : PredictiveUnit)
    (msg : SeldonPayload) : List Call :=
  concurrentLog (w.pick node) (node.Children.map fun c => Execute p w c msg)

mutual
/-- The nodes of the tree rooted at a node, the root first. -/
def PredictiveUnit.subtree : PredictiveUnit → List PredictiveUnit
  | .mk n cs t i ms e => .mk n cs t i ms e :: subtreeAll cs
/-- The nodes of the trees rooted at the nodes of a list. -/
def subtreeAll : List PredictiveUnit → List PredictiveUnit
  | [] => []
  | c :: cs => c.subtree ++ subtreeAll cs
end

/-- No call of the log was answered with an error. -/
def Clean (p : PredictorProcess) (log : List Call) : Prop :=
  ∀ c ∈ log, p.errOf c = none

/-- The error `e` with which a run returned is accounted for by its log: a
returned error is, unchanged, the error with which a call of the log was
answered, and when no error is returned no call of the log was answered with
an error. -/
def Accounted (p : PredictorProcess) (e : GoError) (log : List Call) : Prop :=
  (∀ s, e = some s → ∃ c ∈ log, p.errOf c = some s) ∧ (e = none → Clean p log)

/-- A run that returns accounts for its error by its log. -/
def Faithful {α : Type} (p : PredictorProcess) (r : Run (α × GoError)) : Prop :=
  ∀ a, r.out = .ret a → Accounted p a.2 r.log

end Executor

/-! ## The JSON REST client (`api/rest/client.go`) -/

namespace Rest

open Executor

/-- The constant `ContentTypeJSON`. -/
def ContentTypeJSON : String := "application/json"

/-- Modelled from the spec: the protocol tag `ProtocolSeldon` is declared
outside the sources; the spec names the tag `Seldon`. -/
def ProtocolSeldon : String := "Seldon"

/-- Modelled from the spec: the protocol tag `ProtocolTensorflow` is declared
outside the sources; the spec names the tag `Tensorflow`. -/
def ProtocolTensorflow : String := "Tensorflow"

/-- Modelled from the spec: `client.SeldonPredictPath`. -/
def SeldonPredictPath : String := "/predict"

/-- Modelled from the spec: `client.SeldonTransformInputPath`. -/
def SeldonTransformInputPath : String := "/transform-input"

/-- Modelled from the spec: `client.SeldonTransformOutputPath`. -/
def SeldonTransformOutputPath : String := "/transform-output"

/-- Modelled from the spec: `client.SeldonRoutePath`. -/
def SeldonRoutePath : String := "/route"

/-- Modelled from the spec: `client.SeldonCombinePath`. -/
def SeldonCombinePath : String := "/combine"

/-- The struct `url.URL`, with the three fields that `call` sets. -/
structure URL where
  Scheme : String
  Host : String
  Path : String
deriving DecidableEq, Repr

/-- The part of `http.Response` that `PostHttp` reads: the status code, the
outcome of reading the body, and the `Content-Type` header. -/
structure HttpResponse where
  StatusCode : Int
  Body : Except String String
  ContentType : String

/-- What lies outside the sources: the JSON syntax check of `encoding/json`;
the HTTP stack (`http.NewRequest` followed by `client.Do`), which for a POST
of a body to a URL gives a response or a transport error; and the text of a
URL (the method `String` of `url.URL`, which `%s` prints). -/
structure Net where
  jsonValid : String → Bool
  send : URL → String → Except String HttpResponse
  urlString : URL → String

/-- The struct `JSONRestClient`: only `Protocol` bears on the results. -/
structure JSONRestClient where
  Protocol : String

/-- One invocation of `PostHttp`: an outbound call. -/
structure Post where
  modelName : String
  method : String
  url : URL
  msg : String
deriving DecidableEq, Repr

/-- A run of client code: its outcome and the outbound calls it made. -/
structure Sent (α : Type) where
  out : Outcome α
  posts : List Post
deriving DecidableEq, Repr

/-- The function `net.JoinHostPort`: a host with a colon is put in brackets. -/
def JoinHostPort (host port : String) : String :=
  if host.toList.contains ':' then "[" ++ host ++ "]:" ++ port
  else host ++ ":" ++ port

/-- The method `PostHttp` (tracing and metrics do not bear on the result): the
body, the content type and the error it returns. -/
def PostHttp (env : Net) (url : URL) (msg : String) : String × String × GoError :=
  match env.send url msg with
  | .error e => ("", "", some e)
  | .ok response =>
    if response.StatusCode ≠ 200 then
      ("", "", some ("Internal service call failed with to " ++ env.urlString url
        ++ " status code " ++ toString response.StatusCode))
    else
      match response.Body with
      | .error e => ("", "", some e)
      | .ok b => (b, response.ContentType, none)

/-- The method `getMethod`. -/
def getMethod (smc : JSONRestClient) (method modelName : String) : String :=
  if smc.Protocol = ProtocolSeldon then method
  else if method = SeldonPredictPath ∨ method = SeldonTransformInputPath
      ∨ method = SeldonTransformOutputPath then "/v1/models/" ++ modelName ++ ":predict"
  else if method = SeldonCombinePath then "/v1/models/" ++ modelName ++ ":aggregate"
  else if method = SeldonRoutePath then "/v1/models/" ++ modelName ++ ":route"
  else method

/-- The method `call`; `req.GetPayload()` on a nil payload panics. -/
def call (env : Net) (modelName method host : String) (port : Int) (req : SeldonPayload) :
    Sent Reply :=
  match req with
  | none => ⟨.panic, []⟩
  | some q =>
    let url : URL := ⟨"http", JoinHostPort host (toString port), method⟩
    let r := PostHttp env url q.Msg
    ⟨.ret (match r.2.2 with
        | some err => (none, some err)
        | none => (some ⟨r.1, r.2.1⟩, none)),
      [⟨modelName, method, url, q.Msg⟩]⟩

/-- The function `isJSON`. -/
def isJSON (env : Net) (data : String) : Bool := env.jsonValid data

/-- The first loop of `Combine`: the bodies of the payloads, in order
(`ret (some strData)`), unless a payload is met whose body is not JSON
(`ret none`) or which is nil (`panic`). -/
def extractStrData (env : Net) : List SeldonPayload → Outcome (Option (List String))
  | [] => .ret (some [])
  | none :: _ => .panic
  | some sm :: rest =>
    if !isJSON env sm.Msg then .ret none
    else
      match extractStrData env rest with
      | .ret (some strData) => .ret (some (sm.Msg :: strData))
      | other => other

/-- The method `Combine`. -/
def Combine (env : Net) (smc : JSONRestClient) (modelName host : String) (port : Int)
    (msgs : List SeldonPayload) : Sent Reply :=
  match extractStrData env msgs with
  | .panic => ⟨.panic, []⟩
  | .ret none => ⟨.ret (none, some "Data is not JSON"), []⟩
  | .ret (some strData) =>
    let joined := ",".intercalate strData
    let jStr := "[" ++ joined ++ "]"
    call env modelName (getMethod smc SeldonCombinePath modelName) host port (some ⟨jStr, ""⟩)

end Rest

/-! ## Sample deployments -/

namespace Executor

/-- A JSON payload with the given body. -/
def json (s : String) : SeldonPayload := some ⟨s, "application/json"⟩

/-- The body of a payload (empty for nil). -/
def bodyOf : SeldonPayload → String
  | some q => q.Msg
  | none => ""

/-- A sample backend client.  A backend appends its host to the body it is
sent; the host `down` answers every call with an error; the router on host
`r0`, `r1`, `r7` or `rneg` answers 0, 1, 7 or -2 and every other router -1; a
combiner answers with the JSON array of the bodies it is sent. -/
def demoClient : SeldonApiClient where
  Predict h _ m :=
    if h = "down" then (none, some "status code 500") else (json (bodyOf m ++ "/" ++ h), none)
  TransformInput h _ m :=
    if h = "down" then (none, some "status code 500") else (json (bodyOf m ++ "/" ++ h), none)
  TransformOutput h _ m :=
    if h = "down" then (none, some "status code 500") else (json (bodyOf m ++ "!" ++ h), none)
  Route h _ _ :=
    if h = "down" then (0, some "status code 500")
    else if h = "r0" then (0, none)
    else if h = "r1" then (1, none)
    else if h = "r7" then (7, none)
    else if h = "rneg" then (-2, none)
    else (-1, none)
  Combine h _ ms :=
    if h = "down" then (none, some "status code 500")
    else (json ("[" ++ ",".intercalate (ms.map bodyOf) ++ "]"), none)

/-- The sample engine. -/
def demo : PredictorProcess := ⟨demoClient⟩

/-- A sample oracle: in every fan-out the last child completes first, and of
the goroutines that still have a call to make the second, if there is one,
makes the next call. -/
def lastFirst : Oracle := ⟨fun _ i => 100 - i, fun _ => 0, fun _ _ => 1⟩

/-- A sample oracle: in every fan-out the children complete in child order,
and of the goroutines that still have a call to make the first makes the next
call. -/
def firstFirst : Oracle := ⟨fun _ i => i, fun _ => 0, fun _ _ => 0⟩

/-- A sample oracle under which the calls of two children interleave: the
first child makes the first call of the fan-out, the second child the next
two, the first child the fourth. -/
def zigzag : Oracle :=
  ⟨fun _ i => i, fun _ => 0, fun _ k => if k = 1 ∨ k = 2 then 1 else 0⟩

/-- A leaf with the given role, named after its host. -/
def leaf (host : String) (role : PredictiveUnitType) : PredictiveUnit :=
  .mk host [] (some role) none none ⟨host, 9000⟩

/-- A leaf model that also declares `TRANSFORM_OUTPUT`. -/
def modelWithOutput : PredictiveUnit :=
  .mk "m" [] (some .MODEL) none (some [.TRANSFORM_OUTPUT]) ⟨"m", 9000⟩

/-- Scenario S2: a transformer followed by a model. -/
def chain : PredictiveUnit :=
  .mk "t" [leaf "m" .MODEL] (some .TRANSFORMER) none none ⟨"t", 9000⟩

/-- A transformer followed by a model that declares `TRANSFORM_OUTPUT`. -/
def chainWithOutput : PredictiveUnit :=
  .mk "t" [modelWithOutput] (some .TRANSFORMER) none none ⟨"t", 9000⟩

/-- A transformer followed by a model whose backend is down. -/
def chainDown : PredictiveUnit :=
  .mk "t" [leaf "down" .MODEL] (some .TRANSFORMER) none none ⟨"t", 9000⟩

/-- Scenario S3: a router over two models; the router on `host` decides. -/
def router (host : String) : PredictiveUnit :=
  .mk host [leaf "a" .MODEL, leaf "b" .MODEL] (some .ROUTER) none none ⟨host, 9000⟩

/-- Scenario S4: a combiner over two models. -/
def combiner : PredictiveUnit :=
  .mk "c" [leaf "m1" .MODEL, leaf "m2" .MODEL] (some .COMBINER) none none ⟨"c", 9000⟩

/-- Scenario S5: as S4, the backend of the first model being down. -/
def combinerDown : PredictiveUnit :=
  .mk "c" [leaf "down" .MODEL, leaf "m2" .MODEL] (some .COMBINER) none none ⟨"c", 9000⟩

/-- A combiner over a model whose backend is down and a router whose backend
answers 7, an index outside its two children. -/
def combinerCrash : PredictiveUnit :=
  .mk "c" [leaf "down" .MODEL, router "r7"] (some .COMBINER) none none ⟨"c", 9000⟩

/-- A transformer on `host` in front of a model on `model`. -/
def chainOn (host model : String) : PredictiveUnit :=
  .mk host [leaf model .MODEL] (some .TRANSFORMER) none none ⟨host, 9000⟩

/-- A node without role or methods over two chains of a transformer and a
model. -/
def twoChains : PredictiveUnit :=
  .mk "n" [chainOn "ta" "ma", chainOn "tb" "mb"] none none none ⟨"n", 9000⟩

end Executor

namespace Rest

open Executor

/-- A sample network: a text is taken for JSON when it starts with a bracket or
the digit 2, every POST is answered 200 with the posted body, and the text of
a URL is its scheme, host and path put together. -/
def demoNet : Net where
  jsonValid s := s.toList.head? == some '[' || s.toList.head? == some '2'
  send _ body := .ok ⟨200, .ok body, ContentTypeJSON⟩
  urlString u := u.Scheme ++ "://" ++ u.Host ++ u.Path

end Rest

/-! ## The JSON REST client: routes, payload helpers and chaining -/

namespace Rest

open Executor

/-- What lies outside the sources in the handling of message texts.
`seldonRoutes` is `jsonpb.UnmarshalString` into a `SeldonMessage` followed by
`seldon.ExtractRouteFromSeldonMessage` (`none` when the text does not parse as
a `SeldonMessage`); `jsonRoutes` is `ExtractRouteAsJsonArray`;
`ChainTensorflow` is the function of that name; `statusJSON code info` is the
`jsonpb` text of a `SeldonMessage` whose status has that code and info. -/
structure Codec where
  seldonRoutes : String → Option (List Int)
  jsonRoutes : String → Except String (List Int)
  ChainTensorflow : SeldonPayload → Reply
  statusJSON : Int → String → String

/-- The method `CreateErrorPayload` (for a non-nil error with message `err`);
the payload is made without a content type. -/
def CreateErrorPayload (lib : Codec) (err : String) : SeldonPayload :=
  some ⟨lib.statusJSON 500 err, ""⟩

/-- The method `Marshall`: the bytes it hands to `w.Write` (whose error it
returns); `msg.GetPayload()` on a nil payload panics. -/
def Marshall : SeldonPayload → Outcome String
  | none => .panic
  | some q => .ret q.Msg

/-- The method `Unmarshall`. -/
def Unmarshall (msg : String) : Reply :=
  (some ⟨msg, ContentTypeJSON⟩, none)

/-- The method `Chain`. -/
def Chain (lib : Codec) (smc : JSONRestClient) (msg : SeldonPayload) : Reply :=
  if smc.Protocol = ProtocolSeldon then (msg, none)
  else if smc.Protocol = ProtocolTensorflow then lib.ChainTensorflow msg
  else (none, some ("Unknown protocol " ++ smc.Protocol))

/-- The method `Predict`. -/
def Predict (env : Net) (smc : JSONRestClient) (modelName host : String) (port : Int)
    (req : SeldonPayload) : Sent Reply :=
  call env modelName (getMethod smc SeldonPredictPath modelName) host port req

/-- The method `TransformInput`. -/
def TransformInput (env : Net) (smc : JSONRestClient) (modelName host : String) (port : Int)
    (req : SeldonPayload) : Sent Reply :=
  call env modelName (getMethod smc SeldonTransformInputPath modelName) host port req

/-- The method `TransformOutput`. -/
def TransformOutput (env : Net) (smc : JSONRestClient) (modelName host : String) (port : Int)
    (req : SeldonPayload) : Sent Reply :=
  call env modelName (getMethod smc SeldonTransformOutputPath modelName) host port req

/-- The parsing in `Route`: the routes of the reply text as a `SeldonMessage`
when it parses as one, otherwise its routes as a JSON array, or the error of
the latter. -/
def parseRoutes (lib : Codec) (msg : String) : Except String (List Int) :=
  match lib.seldonRoutes msg with
  | some routes => .ok routes
  | none => lib.jsonRoutes msg

/-- The method `Route`; `routes[0]` panics on an empty slice. -/
def Route (env : Net) (lib : Codec) (smc : JSONRestClient) (modelName host : String)
    (port : Int) (req : SeldonPayload) : Sent (Int × GoError) :=
  let r := call env modelName (getMethod smc SeldonRoutePath modelName) host port req
  match r.out with
  | .panic => ⟨.panic, r.posts⟩
  | .ret (_, some err) => ⟨.ret (0, some err), r.posts⟩
  | .ret (none, none) => ⟨.panic, r.posts⟩
  | .ret (some sp, none) =>
    match parseRoutes lib sp.Msg with
    | .error err => ⟨.ret (0, some err), r.posts⟩
    | .ok [] => ⟨.panic, r.posts⟩
    | .ok (first :: _) => ⟨.ret (first, none), r.posts⟩

/-! ## The HTTP frontend (`api/rest/rest_server.go`) -/

/-- The interface `client.SeldonApiClient` as the frontends use it: the calls
the engine makes, and the payload helpers.  `Marshall` gives the bytes written
to the response. -/
structure ApiClient where
  calls : SeldonApiClient
  Unmarshall : String → Reply
  Marshall : SeldonPayload → Outcome String
  CreateErrorPayload : String → SeldonPayload

/-- The struct `SeldonRestApi`: its client and the graph of its predictor. -/
structure SeldonRestApi where
  Client : ApiClient
  Graph : PredictiveUnit

/-- What a handler put on the `http.ResponseWriter`: the `Content-Type` header
it set, the status code, and the body. -/
structure HttpReply where
  ContentType : String
  StatusCode : Int
  Body : String
deriving DecidableEq, Repr

/-- The method `respondWithSuccess`; `payload.GetContentType()` on a nil
payload panics. -/
def respondWithSuccess (r : SeldonRestApi) (code : Int) (payload : SeldonPayload) :
    Outcome HttpReply :=
  match payload with
  | none => .panic
  | some q =>
    match r.Client.Marshall (some q) with
    | .panic => .panic
    | .ret bytes => .ret ⟨q.ContentType, code, bytes⟩

/-- The method `respondWithError` (for a non-nil error with message `err`). -/
def respondWithError (r : SeldonRestApi) (err : String) : Outcome HttpReply :=
  match r.Client.Marshall (r.Client.CreateErrorPayload err) with
  | .panic => .panic
  | .ret bytes => .ret ⟨"application/json", 500, bytes⟩

/-- The method `predictions`, `body` being the outcome of reading the request
body. -/
def predictions (r : SeldonRestApi) (w : Oracle) (body : Except String String) :
    Outcome HttpReply :=
  match body with
  | .error err => respondWithError r err
  | .ok bodyBytes =>
    match r.Client.Unmarshall bodyBytes with
    | (_, some err) => respondWithError r err
    | (reqPayload, none) =>
      match (Execute ⟨r.Client.calls⟩ w r.Graph reqPayload).out with
      | .panic => .panic
      | .ret (_, some err) => respondWithError r err
      | .ret (resPayload, none) => respondWithSuccess r 200 resPayload

end Rest

/-! ## The gRPC frontend (`api/grpc/seldon_grpc_server.go`) -/

namespace Grpc

open Executor

/-- The struct `GrpcSeldonServer`: its client and the graph of its predictor. -/
structure GrpcSeldonServer where
  Client : SeldonApiClient
  Graph : PredictiveUnit

/-- The method `Predict`.  A `SeldonMessage` is identified with its text, and
`SeldonMessagePayload` with the payload carrying that text;
`resPayload.GetPayload()` on a nil payload panics. -/
def Predict (g : GrpcSeldonServer) (w : Oracle) (req : String) : Outcome (String × GoError) :=
  match (Execute ⟨g.Client⟩ w g.Graph (some ⟨req, ""⟩)).out with
  | .panic => .panic
  | .ret (none, _) => .panic
  | .ret (some resPayload, err) => .ret (resPayload.Msg, err)

end Grpc

/-! ## Further sample values -/

namespace Rest

open Executor

/-- A sample codec: no text is a `SeldonMessage`; the texts `[]`, `[1]` and
`[1,0]` are the integer arrays they denote, no other text is one. -/
def demoCodec : Codec where
  seldonRoutes _ := none
  jsonRoutes s :=
    if s = "[]" then .ok []
    else if s = "[1]" then .ok [1]
    else if s = "[1,0]" then .ok [1, 0]
    else .error "not an array of integers"
  ChainTensorflow m := (m, none)
  statusJSON code info := "status " ++ toString code ++ ": " ++ info

/-- A sample network on which every POST is answered with the given status,
the posted body and the JSON content type; the text of a URL is its scheme,
host and path put together. -/
def statusNet (code : Int) : Net where
  jsonValid _ := true
  send _ body := .ok ⟨code, .ok body, ContentTypeJSON⟩
  urlString u := u.Scheme ++ "://" ++ u.Host ++ u.Path

/-- A sample backend client whose models answer without a content type. -/
def bareClient : SeldonApiClient where
  Predict h _ m := (some ⟨bodyOf m ++ "/" ++ h, ""⟩, none)
  TransformInput _ _ m := (m, none)
  TransformOutput _ _ m := (m, none)
  Route _ _ _ := (-1, none)
  Combine _ _ ms := (ms.headD none, none)

/-- The JSON REST client's payload helpers around a backend client. -/
def restApi (calls : SeldonApiClient) : ApiClient :=
  ⟨calls, Unmarshall, Marshall, CreateErrorPayload demoCodec⟩

end Rest

namespace Executor

/-- A leaf model that also declares `TRANSFORM_INPUT`. -/
def modelWithInput : PredictiveUnit :=
  .mk "m" [] (some .MODEL) none (some [.TRANSFORM_INPUT]) ⟨"m", 9000⟩

end Executor

namespace Executor

end Executor

/-! ## Theorems -/

namespace Executor

/-! ### Unfolding the recursion -/

theorem executeAll_eq_map (p : PredictorProcess) (w : Oracle) (msg : SeldonPayload) :
    ∀ cs : List PredictiveUnit, executeAll p w cs msg = cs.map (fun c => Execute p w c msg)
  | [] => by simp [executeAll]
  | c :: cs => by simp [executeAll, executeAll_eq_map p w msg cs]

theorem Execute_eq (p : PredictorProcess) (w : Oracle) (node : PredictiveUnit)
    (msg : SeldonPayload) :
    Execute p w node msg =
      (transformInput p node msg).bind fun t =>
        match t.2 with
        | some err => Run.pure (t.1, some err)
        | none =>
          (routeChildren p w node t.1).bind fun c =>
            match c.2 with
            | some err => Run.pure (t.1, some err)
            | none => transformOutput p node c.1 := by
  cases node with
  | mk n cs t i ms e => simp [Execute, ExecuteWith, routeChildren, PredictiveUnit.Children]

theorem Run.bind_ret {α β : Type} (a : α) (l : List Call) (f : α → Run β) :
    Run.bind ⟨.ret a, l⟩ f = ⟨(f a).out, l ++ (f a).log⟩ := rfl

theorem Run.bind_panic {α β : Type} (l : List Call) (f : α → Run β) :
    Run.bind (⟨.panic, l⟩ : Run α) f = ⟨.panic, l⟩ := rfl

theorem routeChildren_leaf (p : PredictorProcess) (w : Oracle) (node : PredictiveUnit)
    (msg : SeldonPayload) (h : node.Children = []) :
    routeChildren p w node msg = ⟨.ret (msg, none), []⟩ := by
  simp [routeChildren, routeChildrenWith, h, Run.pure]

/-! ### C1 -/

/-- C1. When the input transform of a node returns `t` without error and
`routeChildren` on `t` returns `c` without error, `Execute` returns exactly
what `transformOutput` on `c` returns, and the backend calls of `Execute` are
those of the three steps, in that order, and no other. -/
theorem C1_Execute_composition (p : PredictorProcess) (w : Oracle) (node : PredictiveUnit)
    (msg t c : SeldonPayload) (l₁ l₂ : List Call)
    (h₁ : transformInput p node msg = ⟨.ret (t, none), l₁⟩)
    (h₂ : routeChildren p w node t = ⟨.ret (c, none), l₂⟩) :
    Execute p w node msg =
      ⟨(transformOutput p node c).out, l₁ ++ (l₂ ++ (transformOutput p node c).log)⟩ := by
  rw [Execute_eq, h₁, Run.bind_ret]
  simp only [h₂, Run.bind_ret]

/-- C1 on scenario S2: the transformer's input transform, then the routing to
its only child, then an output transform that leaves the payload alone. -/
theorem C1_Execute_composition_witness :
    transformInput demo chain (json "in")
        = ⟨.ret (json "in/t", none), [.TransformInput "t" 9000 (json "in")]⟩
      ∧ routeChildren demo lastFirst chain (json "in/t")
        = ⟨.ret (json "in/t/m", none), [.Predict "m" 9000 (json "in/t")]⟩
      ∧ Execute demo lastFirst chain (json "in")
        = ⟨.ret (json "in/t/m", none),
            [.TransformInput "t" 9000 (json "in"), .Predict "m" 9000 (json "in/t")]⟩ :=
  ⟨by decide, by decide,
    C1_Execute_composition demo lastFirst chain (json "in") (json "in/t") (json "in/t/m")
      [.TransformInput "t" 9000 (json "in")] [.Predict "m" 9000 (json "in/t")]
      (by decide) (by decide)⟩

/-! ### C2: a model leaf that declares an output transform -/

/-- C2 as stated fails: a leaf of role MODEL that declares TRANSFORM_OUTPUT
returns what the output transformer makes of the prediction, after a second
backend call. -/
theorem C2_counterexample :
    modelWithOutput.Type_ = some .MODEL ∧ modelWithOutput.Children = []
      ∧ demo.Client.Predict "m" 9000 (json "in") = (json "in/m", none)
      ∧ Execute demo lastFirst modelWithOutput (json "in")
        = ⟨.ret (json "in/m!m", none),
            [.Predict "m" 9000 (json "in"), .TransformOutput "m" 9000 (json "in/m")]⟩
      ∧ (Execute demo lastFirst modelWithOutput (json "in")).out
        ≠ .ret (demo.Client.Predict modelWithOutput.Endpoint.ServiceHost
            modelWithOutput.Endpoint.ServicePort (json "in")) :=
  ⟨rfl, rfl, by decide, by decide, by decide⟩

end Executor

namespace Executor

/-! ### The interleaving of concurrent calls -/

/-- The calls that goroutines have still to make, goroutine after goroutine. -/
theorem nextCall_perm : ∀ (n : Nat) (rs rs' : List Routine) (c : Call),
    nextCall n rs = some (c, rs') →
      ((rs.map fun r => r.todo).flatten).Perm (c :: (rs'.map fun r => r.todo).flatten)
  | _, [], _, _, h => by simp [nextCall] at h
  | n, ⟨[], b⟩ :: rs, rs', c, h => by
    simp only [nextCall, Option.map_eq_some'] at h
    rcases h with ⟨⟨d, rs₁⟩, h₁, h₂⟩
    simp only [Prod.mk.injEq] at h₂
    obtain ⟨rfl, rfl⟩ := h₂
    simpa using nextCall_perm n rs rs₁ d h₁
  | 0, ⟨d :: l, b⟩ :: rs, rs', c, h => by
    simp only [nextCall, Option.some.injEq, Prod.mk.injEq] at h
    obtain ⟨rfl, rfl⟩ := h
    simp
  | n + 1, ⟨d :: l, b⟩ :: rs, rs', c, h => by
    simp only [nextCall, Option.map_eq_some'] at h
    rcases h with ⟨⟨e, rs₁⟩, h₁, h₂⟩
    simp only [Prod.mk.injEq] at h₂
    obtain ⟨rfl, rfl⟩ := h₂
    have ih := nextCall_perm n rs rs₁ e h₁
    simp only [List.map_cons, List.flatten_cons, List.cons_append]
    have h₃ : (d :: (l ++ (rs.map fun r => r.todo).flatten)).Perm
        (d :: (l ++ e :: (rs₁.map fun r => r.todo).flatten)) :=
      List.Perm.cons d (List.Perm.append_left l ih)
    refine h₃.trans ?_
    have h₄ : (d :: (l ++ e :: (rs₁.map fun r => r.todo).flatten)).Perm
        (e :: (d :: (l ++ (rs₁.map fun r => r.todo).flatten))) := by
      have : (d :: l ++ e :: (rs₁.map fun r => r.todo).flatten).Perm
          (e :: (d :: l ++ (rs₁.map fun r => r.todo).flatten)) :=
        List.perm_middle
      simpa using this
    exact h₄

/-- After a call is made each goroutine is as it was, but for the one that
made the call, which has that call no longer to make. -/
theorem nextCall_rel : ∀ (n : Nat) (rs rs' : List Routine) (c : Call),
    nextCall n rs = some (c, rs') →
      List.Forall₂ (fun r r' : Routine =>
        r'.panics = r.panics ∧ (r.todo = r'.todo ∨ r.todo = c :: r'.todo)) rs rs'
  | _, [], _, _, h => by simp [nextCall] at h
  | n, ⟨[], b⟩ :: rs, rs', c, h => by
    simp only [nextCall, Option.map_eq_some'] at h
    rcases h with ⟨⟨d, rs₁⟩, h₁, h₂⟩
    simp only [Prod.mk.injEq] at h₂
    obtain ⟨rfl, rfl⟩ := h₂
    exact List.Forall₂.cons ⟨rfl, Or.inl rfl⟩ (nextCall_rel n rs rs₁ d h₁)
  | 0, ⟨d :: l, b⟩ :: rs, rs', c, h => by
    simp only [nextCall, Option.some.injEq, Prod.mk.injEq] at h
    obtain ⟨rfl, rfl⟩ := h
    refine List.Forall₂.cons ⟨rfl, Or.inr rfl⟩ ?_
    exact List.forall₂_same.mpr (fun r _ => ⟨rfl, Or.inl rfl⟩)
  | n + 1, ⟨d :: l, b⟩ :: rs, rs', c, h => by
    simp only [nextCall, Option.map_eq_some'] at h
    rcases h with ⟨⟨e, rs₁⟩, h₁, h₂⟩
    simp only [Prod.mk.injEq] at h₂
    obtain ⟨rfl, rfl⟩ := h₂
    exact List.Forall₂.cons ⟨rfl, Or.inl rfl⟩ (nextCall_rel n rs rs₁ e h₁)

/-- A goroutine that still has a call to make can be given the turn. -/
theorem nextCall_isSome : ∀ (n : Nat) (rs : List Routine),
    n < (rs.filter fun r => !r.todo.isEmpty).length → (nextCall n rs).isSome
  | _, [], h => by simp at h
  | n, ⟨[], b⟩ :: rs, h => by
    have h' : n < (rs.filter fun r => !r.todo.isEmpty).length := by simpa using h
    simpa [nextCall] using nextCall_isSome n rs h'
  | 0, ⟨d :: l, b⟩ :: rs, _ => by simp [nextCall]
  | n + 1, ⟨d :: l, b⟩ :: rs, h => by
    have h' : n < (rs.filter fun r => !r.todo.isEmpty).length := by simpa using h
    simpa [nextCall] using nextCall_isSome n rs h'

theorem flatten_nil_of_no_live : ∀ rs : List Routine,
    (rs.filter fun r => !r.todo.isEmpty).length = 0 → (rs.map fun r => r.todo).flatten = []
  | [], _ => rfl
  | ⟨[], b⟩ :: rs, h => by
    have h' : (rs.filter fun r => !r.todo.isEmpty).length = 0 := by simpa using h
    simpa using flatten_nil_of_no_live rs h'
  | ⟨d :: l, b⟩ :: rs, h => by simp at h

theorem no_dying (rs : List Routine) (hp : ∀ r ∈ rs, r.panics = false) :
    (rs.filter fun r => r.todo.isEmpty && r.panics).length = 0 := by
  rw [List.length_eq_zero, List.filter_eq_nil_iff]
  intro r hr
  simp [hp r hr]

/-- Every call of an interleaving is a call that one of the goroutines had to
make. -/
theorem mem_interleave (pick : Nat → Nat) : ∀ (fuel k : Nat) (rs : List Routine) (c : Call),
    c ∈ interleave pick fuel k rs → c ∈ (rs.map fun r => r.todo).flatten
  | 0, _, _, _, h => by simp [interleave] at h
  | fuel + 1, k, rs, c, h => by
    unfold interleave at h
    split at h
    · simp at h
    · rename_i d rs' hn
      have hp := nextCall_perm _ rs rs' d hn
      rcases List.mem_cons.mp h with rfl | h
      · exact hp.symm.subset (List.mem_cons_self _ _)
      · exact hp.symm.subset
          (List.mem_cons_of_mem _ (mem_interleave pick fuel (k + 1) rs' c h))

/-- When no goroutine panics, the interleaving consists of exactly the calls
the goroutines had to make. -/
theorem interleave_perm (pick : Nat → Nat) : ∀ (fuel k : Nat) (rs : List Routine),
    (∀ r ∈ rs, r.panics = false) → ((rs.map fun r => r.todo).flatten).length ≤ fuel →
      (interleave pick fuel k rs).Perm ((rs.map fun r => r.todo).flatten)
  | 0, _, rs, _, hf => by
    have : (rs.map fun r => r.todo).flatten = [] := List.length_eq_zero.mp (by omega)
    rw [this]
    simp [interleave]
  | fuel + 1, k, rs, hp, hf => by
    have hdying : (rs.filter fun r => r.todo.isEmpty && r.panics).length = 0 :=
      no_dying rs hp
    unfold interleave
    simp only [hdying, Nat.add_zero]
    by_cases hlive : (rs.filter fun r => !r.todo.isEmpty).length = 0
    · have hnil := flatten_nil_of_no_live rs hlive
      rw [hnil]
      split
      · exact List.Perm.nil
      · rename_i d rs' hn
        have := (nextCall_perm _ rs rs' d hn).length_eq
        rw [hnil] at this
        simp at this
    · have hlt : pick k % (rs.filter fun r => !r.todo.isEmpty).length
          < (rs.filter fun r => !r.todo.isEmpty).length :=
        Nat.mod_lt _ (Nat.pos_of_ne_zero hlive)
      have hsome := nextCall_isSome _ rs hlt
      split
      · rename_i hn
        rw [hn] at hsome
        cases hsome
      · rename_i d rs' hn
        have hperm := nextCall_perm _ rs rs' d hn
        have hrel := nextCall_rel _ rs rs' d hn
        have hp' : ∀ r' ∈ rs', r'.panics = false := by
          intro r' hr'
          rcases (List.forall₂_iff_get.mp hrel) with ⟨hlen, hget⟩
          rcases List.getElem_of_mem hr' with ⟨i, hi, rfl⟩
          have := hget i (by omega) hi
          rw [List.get_eq_getElem, List.get_eq_getElem] at this
          rw [this.1]
          exact hp _ (List.getElem_mem _)
        have hlen : ((rs'.map fun r => r.todo).flatten).length ≤ fuel := by
          have := hperm.length_eq
          simp only [List.length_cons] at this
          omega
        exact ((interleave_perm pick fuel (k + 1) rs' hp' hlen).cons d).trans hperm.symm

/-- When no goroutine panics, the calls of each goroutine occur in the
interleaving in the order in which it made them. -/
theorem interleave_sublist (pick : Nat → Nat) : ∀ (fuel k : Nat) (rs : List Routine),
    (∀ r ∈ rs, r.panics = false) → ((rs.map fun r => r.todo).flatten).length ≤ fuel →
      ∀ r ∈ rs, r.todo.Sublist (interleave pick fuel k rs)
  | 0, _, rs, _, hf, r, hr => by
    have hnil : (rs.map fun r => r.todo).flatten = [] := List.length_eq_zero.mp (by omega)
    have : r.todo = [] := by
      have hall := List.flatten_eq_nil_iff.mp hnil
      exact hall r.todo (List.mem_map.mpr ⟨r, hr, rfl⟩)
    rw [this]
    exact List.nil_sublist _
  | fuel + 1, k, rs, hp, hf, r, hr => by
    have hdying : (rs.filter fun r => r.todo.isEmpty && r.panics).length = 0 :=
      no_dying rs hp
    unfold interleave
    simp only [hdying, Nat.add_zero]
    by_cases hlive : (rs.filter fun r => !r.todo.isEmpty).length = 0
    · have hnil := flatten_nil_of_no_live rs hlive
      have : r.todo = [] := by
        have hall := List.flatten_eq_nil_iff.mp hnil
        exact hall r.todo (List.mem_map.mpr ⟨r, hr, rfl⟩)
      rw [this]
      exact List.nil_sublist _
    · have hlt : pick k % (rs.filter fun r => !r.todo.isEmpty).length
          < (rs.filter fun r => !r.todo.isEmpty).length :=
        Nat.mod_lt _ (Nat.pos_of_ne_zero hlive)
      have hsome := nextCall_isSome _ rs hlt
      split
      · rename_i hn
        rw [hn] at hsome
        cases hsome
      · rename_i d rs' hn
        have hperm := nextCall_perm _ rs rs' d hn
        have hrel := nextCall_rel _ rs rs' d hn
        rcases (List.forall₂_iff_get.mp hrel) with ⟨hlen', hget⟩
        have hp' : ∀ r' ∈ rs', r'.panics = false := by
          intro r' hr'
          rcases List.getElem_of_mem hr' with ⟨i, hi, rfl⟩
          have := hget i (by omega) hi
          rw [List.get_eq_getElem, List.get_eq_getElem] at this
          rw [this.1]
          exact hp _ (List.getElem_mem _)
        have hlen : ((rs'.map fun r => r.todo).flatten).length ≤ fuel := by
          have := hperm.length_eq
          simp only [List.length_cons] at this
          omega
        rcases List.getElem_of_mem hr with ⟨i, hi, rfl⟩
        have hi' : i < rs'.length := by omega
        have hrel_i := hget i hi hi'
        rw [List.get_eq_getElem, List.get_eq_getElem] at hrel_i
        have ih := interleave_sublist pick fuel (k + 1) rs' hp' hlen rs'[i]
          (List.getElem_mem _)
        rcases hrel_i.2 with h | h
        · rw [h]; exact List.Sublist.cons d ih
        · rw [h]; exact List.Sublist.cons₂ d ih

/-- A single goroutine makes its calls in order. -/
theorem interleave_single (pick : Nat → Nat) : ∀ (fuel k : Nat) (l : List Call) (b : Bool),
    l.length ≤ fuel → interleave pick fuel k [⟨l, b⟩] = l
  | 0, _, l, _, h => by
    have : l = [] := List.length_eq_zero.mp (by omega)
    subst this
    rfl
  | fuel + 1, k, [], b, _ => by
    cases b <;> simp [interleave, nextCall]
  | fuel + 1, k, c :: l, b, h => by
    have ih := interleave_single pick fuel (k + 1) l b (by simpa using h)
    simp [interleave, nextCall, Nat.mod_one, ih]

theorem concurrentLog_single (pick : Nat → Nat) (r : Run Reply) :
    concurrentLog pick [r] = r.log := by
  simp [concurrentLog, Routine.ofRun, interleave_single]

theorem todo_of_runs (runs : List (Run Reply)) :
    ((runs.map Routine.ofRun).map fun r => r.todo) = runs.map fun r => r.log := by
  simp [Routine.ofRun]

theorem length_flatten_logs (runs : List (Run Reply)) :
    ((runs.map fun r => r.log).flatten).length = (runs.map fun r => r.log.length).sum := by
  induction runs with
  | nil => rfl
  | cons r rs ih => simp [ih]

/-- Every call of a concurrent log is a call of one of the runs. -/
theorem mem_concurrentLog (pick : Nat → Nat) (runs : List (Run Reply)) (c : Call)
    (h : c ∈ concurrentLog pick runs) : ∃ r ∈ runs, c ∈ r.log := by
  have := mem_interleave pick _ _ _ c h
  rw [todo_of_runs] at this
  simpa using this

/-- When no run panics, the concurrent log consists of exactly the calls of
the runs. -/
theorem concurrentLog_perm (pick : Nat → Nat) (runs : List (Run Reply))
    (hnp : ∀ r ∈ runs, r.out ≠ .panic) :
    (concurrentLog pick runs).Perm ((runs.map fun r => r.log).flatten) := by
  have h := interleave_perm pick (runs.map fun r => r.log.length).sum 0
    (runs.map Routine.ofRun)
    (by
      intro r hr
      rcases List.mem_map.mp hr with ⟨x, hx, rfl⟩
      simpa [Routine.ofRun] using hnp x hx)
    (by rw [todo_of_runs, length_flatten_logs])
  rw [todo_of_runs] at h
  exact h

/-- When no run panics, the calls of each run occur in the concurrent log in
the order in which the run made them. -/
theorem concurrentLog_sublist (pick : Nat → Nat) (runs : List (Run Reply))
    (hnp : ∀ r ∈ runs, r.out ≠ .panic) (r : Run Reply) (hr : r ∈ runs) :
    r.log.Sublist (concurrentLog pick runs) := by
  have h := interleave_sublist pick (runs.map fun r => r.log.length).sum 0
    (runs.map Routine.ofRun)
    (by
      intro r hr
      rcases List.mem_map.mp hr with ⟨x, hx, rfl⟩
      simpa [Routine.ofRun] using hnp x hx)
    (by rw [todo_of_runs, length_flatten_logs])
    (Routine.ofRun r) (List.mem_map.mpr ⟨r, hr, rfl⟩)
  exact h

end Executor

namespace Executor

/-! ### The fan-out -/

theorem completionOrder_perm (times : Nat → Nat) (n : Nat) :
    (completionOrder times n).Perm (List.range n) :=
  List.perm_insertionSort _ _

theorem mem_completionOrder (times : Nat → Nat) (n i : Nat) :
    i ∈ completionOrder times n ↔ i < n := by
  rw [(completionOrder_perm times n).mem_iff, List.mem_range]

theorem writeSlot_of_some (runs : List (Run Reply)) (s : List SeldonPayload × List GoError)
    (i : Nat) (r : Run Reply) (hr : runs[i]? = some r) (hnp : r.out ≠ .panic) :
    writeSlot runs s i = (s.1.set i r.payload, s.2.set i r.err) := by
  obtain ⟨out, log⟩ := r
  cases out with
  | panic => exact absurd rfl hnp
  | ret a => obtain ⟨m, e⟩ := a; simp [writeSlot, hr, Run.payload, Run.err]

theorem writeSlot_of_none (runs : List (Run Reply)) (s : List SeldonPayload × List GoError)
    (i : Nat) (hr : runs[i]? = none) : writeSlot runs s i = s := by
  simp [writeSlot, hr]

theorem foldl_writeSlot (runs : List (Run Reply)) (hnp : ∀ r ∈ runs, r.out ≠ .panic) :
    ∀ (order : List Nat) (s : List SeldonPayload × List GoError),
      s.1.length = runs.length → s.2.length = runs.length →
      ∀ j, ((order.foldl (writeSlot runs) s).1[j]?
              = if j ∈ order then (runs[j]?).map Run.payload else s.1[j]?)
        ∧ ((order.foldl (writeSlot runs) s).2[j]?
              = if j ∈ order then (runs[j]?).map Run.err else s.2[j]?)
  | [], s, _, _, j => by simp
  | i :: rest, s, h₁, h₂, j => by
    rw [List.foldl_cons]
    cases hr : runs[i]? with
    | none =>
      rw [writeSlot_of_none runs s i hr]
      have ih := foldl_writeSlot runs hnp rest s h₁ h₂ j
      have hi : runs.length ≤ i := List.getElem?_eq_none_iff.mp hr
      by_cases hji : j = i
      · subst hji
        have e₁ : s.1[j]? = none := List.getElem?_eq_none (by omega)
        have e₂ : s.2[j]? = none := List.getElem?_eq_none (by omega)
        simp [ih.1, ih.2, hr, e₁, e₂]
      · simp [ih.1, ih.2, hji]
    | some r =>
      have hr' : r ∈ runs := by
        rcases List.getElem?_eq_some.mp hr with ⟨h, rfl⟩
        exact List.getElem_mem h
      rw [writeSlot_of_some runs s i r hr (hnp r hr')]
      have ih := foldl_writeSlot runs hnp rest (s.1.set i r.payload, s.2.set i r.err)
        (by simpa using h₁) (by simpa using h₂) j
      have hi : i < runs.length := by
        rcases List.getElem?_eq_some.mp hr with ⟨h, _⟩; exact h
      by_cases hji : j = i
      · subst hji
        simp [ih.1, ih.2, hr, List.getElem?_set, h₁, h₂, hi]
      · have hij : i ≠ j := fun h => hji h.symm
        simp [ih.1, ih.2, hji, List.getElem?_set, hij]

theorem fanOut_slots (times : Nat → Nat) (runs : List (Run Reply))
    (hnp : ∀ r ∈ runs, r.out ≠ .panic) :
    (completionOrder times runs.length).foldl (writeSlot runs)
        (List.replicate runs.length none, List.replicate runs.length none)
      = (runs.map Run.payload, runs.map Run.err) := by
  have key := foldl_writeSlot runs hnp (completionOrder times runs.length)
    (List.replicate runs.length none, List.replicate runs.length none) (by simp) (by simp)
  apply Prod.ext
  · apply List.ext_getElem?
    intro j
    rw [(key j).1]
    by_cases hj : j < runs.length
    · simp [mem_completionOrder, hj]
    · have : runs[j]? = none := List.getElem?_eq_none (by omega)
      simp [mem_completionOrder, hj, this]
      omega
  · apply List.ext_getElem?
    intro j
    rw [(key j).2]
    by_cases hj : j < runs.length
    · simp [mem_completionOrder, hj]
    · have : runs[j]? = none := List.getElem?_eq_none (by omega)
      simp [mem_completionOrder, hj, this]
      omega

theorem fanOut_of_returns (times pick : Nat → Nat) (runs : List (Run Reply))
    (hnp : ∀ r ∈ runs, r.out ≠ .panic) :
    fanOut times pick runs =
      ⟨.ret (runs.map Run.payload, runs.map Run.err), concurrentLog pick runs⟩ := by
  have hany : (runs.any fun r => decide (r.out = .panic)) = false := by
    rw [List.any_eq_false]
    intro r hr
    simpa using hnp r hr
  simp only [fanOut, hany, fanOut_slots times runs hnp]
  simp

theorem fanOut_log (times pick : Nat → Nat) (runs : List (Run Reply)) :
    (fanOut times pick runs).log = concurrentLog pick runs := by
  unfold fanOut
  split <;> rfl

theorem fanOut_log_executeAll (p : PredictorProcess) (w : Oracle) (node : PredictiveUnit)
    (msg : SeldonPayload) :
    (fanOut (w.completion node) (w.pick node) (executeAll p w node.Children msg)).log
      = fanOutLog p w node msg := by
  rw [fanOut_log, fanOutLog, executeAll_eq_map]

end Executor

namespace Executor

/-! ### The branches of `routeChildren` -/

theorem routeChildren_route_error (p : PredictorProcess) (w : Oracle) (node : PredictiveUnit)
    (t : SeldonPayload) (r : Int) (e : String) (l : List Call)
    (hne : node.Children ≠ [])
    (hr : route p w node t = ⟨.ret (r, some e), l⟩) :
    routeChildren p w node t = ⟨.ret (none, some e), l⟩ := by
  have hlen : node.Children.length > 0 := List.length_pos.mpr hne
  simp [routeChildren, routeChildrenWith, hlen, hr, Run.bind_ret, Run.pure]

theorem routeChildren_out_of_range (p : PredictorProcess) (w : Oracle) (node : PredictiveUnit)
    (t : SeldonPayload) (r : Int) (l : List Call)
    (hne : node.Children ≠ [])
    (hr : route p w node t = ⟨.ret (r, none), l⟩)
    (hout : r < -1 ∨ (node.Children.length : Int) ≤ r) :
    routeChildren p w node t = ⟨.panic, l⟩ := by
  have hlen : node.Children.length > 0 := List.length_pos.mpr hne
  have h1 : r ≠ -1 := by omega
  have h2 : r < 0 ∨ ((executeAll p w node.Children t).length : Int) ≤ r := by
    rw [executeAll_eq_map, List.length_map]; omega
  simp [routeChildren, routeChildrenWith, hlen, hr, Run.bind_ret, h1, routed, h2, Run.bind_panic]

theorem routeChildren_routed (p : PredictorProcess) (w : Oracle) (node child : PredictiveUnit)
    (t : SeldonPayload) (k : Int) (l : List Call)
    (hr : route p w node t = ⟨.ret (k, none), l⟩)
    (h0 : 0 ≤ k) (hchild : node.Children[k.toNat]? = some child) :
    routeChildren p w node t =
      match (Execute p w child t).out with
      | .panic => ⟨.panic, l ++ (Execute p w child t).log⟩
      | .ret (cm, some e) => ⟨.ret (cm, some e), l ++ (Execute p w child t).log⟩
      | .ret (cm, none) =>
        ⟨(aggregate p node [cm]).out,
          l ++ ((Execute p w child t).log ++ (aggregate p node [cm]).log)⟩ := by
  have hklt : k.toNat < node.Children.length := by
    rcases List.getElem?_eq_some.mp hchild with ⟨h, _⟩; exact h
  have hlen : node.Children.length > 0 := by omega
  have h1 : k ≠ -1 := by omega
  have h2 : ¬ (k < 0 ∨ ((executeAll p w node.Children t).length : Int) ≤ k) := by
    rw [executeAll_eq_map, List.length_map]; omega
  have h3 : (executeAll p w node.Children t).getD k.toNat ⟨.panic, []⟩ = Execute p w child t := by
    rw [executeAll_eq_map]; simp [hchild]
  simp only [routeChildren, routeChildrenWith, hlen, hr, Run.bind_ret, h1, routed, h2, h3,
    if_true, if_false]
  rcases hx : Execute p w child t with ⟨out, lg⟩
  cases out with
  | panic => simp [Run.bind]
  | ret a =>
    obtain ⟨cm, e⟩ := a
    cases e with
    | none => simp [Run.bind]
    | some e => simp [Run.bind, Run.pure]

theorem routeChildren_fanOut (p : PredictorProcess) (w : Oracle) (node : PredictiveUnit)
    (t : SeldonPayload) (l : List Call)
    (hne : node.Children ≠ [])
    (hr : route p w node t = ⟨.ret (-1, none), l⟩)
    (hret : ∀ c ∈ node.Children, (Execute p w c t).out ≠ .panic) :
    routeChildren p w node t =
      match firstError (node.Children.map fun c => (Execute p w c t).payload)
          (node.Children.map fun c => (Execute p w c t).err) with
      | some reply => ⟨.ret reply, l ++ fanOutLog p w node t⟩
      | none =>
        ⟨(aggregate p node (node.Children.map fun c => (Execute p w c t).payload)).out,
          l ++ (fanOutLog p w node t
            ++ (aggregate p node (node.Children.map fun c => (Execute p w c t).payload)).log)⟩ := by
  have hlen : node.Children.length > 0 := List.length_pos.mpr hne
  have hnp : ∀ r ∈ executeAll p w node.Children t, r.out ≠ .panic := by
    rw [executeAll_eq_map]
    intro r hr
    rcases List.mem_map.mp hr with ⟨c, hc, rfl⟩
    exact hret c hc
  have hlog := fanOut_log_executeAll p w node t
  have hf := fanOut_of_returns (w.completion node) (w.pick node)
    (executeAll p w node.Children t) hnp
  rw [hf] at hlog
  simp only at hlog
  rw [hlog] at hf
  have hm₁ : (executeAll p w node.Children t).map Run.payload
      = node.Children.map fun c => (Execute p w c t).payload := by
    rw [executeAll_eq_map]; simp
  have hm₂ : (executeAll p w node.Children t).map Run.err
      = node.Children.map fun c => (Execute p w c t).err := by
    rw [executeAll_eq_map]; simp
  rw [hm₁, hm₂] at hf
  simp only [routeChildren, routeChildrenWith, hlen, hr, Run.bind_ret, hf, if_true]
  cases firstError (node.Children.map fun c => (Execute p w c t).payload)
      (node.Children.map fun c => (Execute p w c t).err) with
  | none => simp
  | some reply => simp [Run.pure]

end Executor

namespace Executor

/-! ### Induction on the graph, and where the calls of a run come from -/

mutual
theorem PredictiveUnit.induct (P : PredictiveUnit → Prop)
    (step : ∀ node : PredictiveUnit, (∀ c ∈ node.Children, P c) → P node) :
    ∀ node : PredictiveUnit, P node
  | .mk n cs t i ms e => step (.mk n cs t i ms e) (PredictiveUnit.induct_all P step cs)
theorem PredictiveUnit.induct_all (P : PredictiveUnit → Prop)
    (step : ∀ node : PredictiveUnit, (∀ c ∈ node.Children, P c) → P node) :
    ∀ cs : List PredictiveUnit, ∀ c ∈ cs, P c
  | [], _, h => by cases h
  | d :: ds, c, h => by
    rcases List.mem_cons.mp h with rfl | h
    · exact PredictiveUnit.induct P step c
    · exact PredictiveUnit.induct_all P step ds c h
end

theorem mem_of_getElem?_some {α : Type} {l : List α} {i : Nat} {a : α}
    (h : l[i]? = some a) : a ∈ l := by
  rcases List.getElem?_eq_some.mp h with ⟨hi, rfl⟩
  exact List.getElem_mem hi

theorem mem_subtreeAll (n : PredictiveUnit) :
    ∀ cs : List PredictiveUnit, n ∈ subtreeAll cs ↔ ∃ c ∈ cs, n ∈ c.subtree
  | [] => by simp [subtreeAll]
  | c :: cs => by simp [subtreeAll, mem_subtreeAll n cs]

theorem subtree_eq (node : PredictiveUnit) :
    node.subtree = node :: subtreeAll node.Children := by
  cases node with
  | mk n cs t i ms e => simp [PredictiveUnit.subtree, PredictiveUnit.Children]

theorem mem_subtree_of_child (node child n : PredictiveUnit) (hc : child ∈ node.Children)
    (hn : n ∈ child.subtree) : n ∈ node.subtree := by
  rw [subtree_eq]
  exact List.mem_cons_of_mem _ ((mem_subtreeAll n _).mpr ⟨child, hc, hn⟩)

theorem Run.mem_bind_log {α β : Type} (r : Run α) (f : α → Run β) (c : Call)
    (h : c ∈ (r.bind f).log) : c ∈ r.log ∨ ∃ a, r.out = .ret a ∧ c ∈ (f a).log := by
  obtain ⟨out, l⟩ := r
  cases out with
  | panic => left; simpa [Run.bind] using h
  | ret a =>
    simp only [Run.bind, List.mem_append] at h
    rcases h with h | h
    · exact Or.inl h
    · exact Or.inr ⟨a, rfl, h⟩

theorem mem_transformInput_log (p : PredictorProcess) (node : PredictiveUnit)
    (msg : SeldonPayload) (c : Call) (h : c ∈ (transformInput p node msg).log) :
    c = .Predict node.Endpoint.ServiceHost node.Endpoint.ServicePort msg
      ∨ c = .TransformInput node.Endpoint.ServiceHost node.Endpoint.ServicePort msg := by
  unfold transformInput at h
  split at h
  · left; simpa [PredictorProcess.Predict] using h
  · right; simpa [PredictorProcess.TransformInput] using h
  · split at h
    · right; simpa [PredictorProcess.TransformInput] using h
    · simp [Run.pure] at h

theorem mem_transformOutput_log (p : PredictorProcess) (node : PredictiveUnit)
    (msg : SeldonPayload) (c : Call) (h : c ∈ (transformOutput p node msg).log) :
    c = .TransformOutput node.Endpoint.ServiceHost node.Endpoint.ServicePort msg := by
  unfold transformOutput at h
  split at h
  · simpa [PredictorProcess.TransformOutput] using h
  · split at h
    · simpa [PredictorProcess.TransformOutput] using h
    · simp [Run.pure] at h

theorem mem_route_log (p : PredictorProcess) (w : Oracle) (node : PredictiveUnit)
    (msg : SeldonPayload) (c : Call) (h : c ∈ (route p w node msg).log) :
    c = .Route node.Endpoint.ServiceHost node.Endpoint.ServicePort msg := by
  unfold route at h
  split at h
  · simpa [PredictorProcess.Route] using h
  · split at h
    · simpa [PredictorProcess.Route] using h
    · split at h
      · simp [abTestRouter, Run.pure] at h
      · simp [Run.pure] at h

theorem mem_aggregate_log (p : PredictorProcess) (node : PredictiveUnit)
    (msgs : List SeldonPayload) (c : Call) (h : c ∈ (aggregate p node msgs).log) :
    c = .Combine node.Endpoint.ServiceHost node.Endpoint.ServicePort msgs := by
  unfold aggregate at h
  split at h
  · simpa [PredictorProcess.Combine] using h
  · split at h
    · simpa [PredictorProcess.Combine] using h
    · split at h <;> simp [Run.pure] at h

/-- Every call of a fan-out is a call of the run of `Execute` on a child. -/
theorem mem_fanOutLog (p : PredictorProcess) (w : Oracle) (node : PredictiveUnit)
    (msg : SeldonPayload) (c : Call) (h : c ∈ fanOutLog p w node msg) :
    ∃ child ∈ node.Children, c ∈ (Execute p w child msg).log := by
  rcases mem_concurrentLog _ _ c h with ⟨r, hr, hc⟩
  rcases List.mem_map.mp hr with ⟨child, hchild, rfl⟩
  exact ⟨child, hchild, hc⟩

theorem returns_of_children (p : PredictorProcess) (w : Oracle) (node : PredictiveUnit)
    (msg : SeldonPayload) (hret : ∀ c ∈ node.Children, (Execute p w c msg).out ≠ .panic) :
    ∀ r ∈ node.Children.map (fun c => Execute p w c msg), r.out ≠ .panic := by
  intro r hr
  rcases List.mem_map.mp hr with ⟨c, hc, rfl⟩
  exact hret c hc

/-- When every child's `Execute` returns, the calls of the fan-out are exactly
those of one run of `Execute` on each child. -/
theorem fanOutLog_perm (p : PredictorProcess) (w : Oracle) (node : PredictiveUnit)
    (msg : SeldonPayload) (hret : ∀ c ∈ node.Children, (Execute p w c msg).out ≠ .panic) :
    (fanOutLog p w node msg).Perm
      ((node.Children.map fun c => (Execute p w c msg).log).flatten) := by
  have h := concurrentLog_perm (w.pick node) _ (returns_of_children p w node msg hret)
  simpa [fanOutLog, List.map_map, Function.comp_def] using h

/-- When every child's `Execute` returns, the calls of each child occur in the
fan-out in the order in which the child made them. -/
theorem fanOutLog_sublist (p : PredictorProcess) (w : Oracle) (node : PredictiveUnit)
    (msg : SeldonPayload) (hret : ∀ c ∈ node.Children, (Execute p w c msg).out ≠ .panic) :
    ∀ c ∈ node.Children, ((Execute p w c msg).log).Sublist (fanOutLog p w node msg) := by
  intro c hc
  exact concurrentLog_sublist (w.pick node) _ (returns_of_children p w node msg hret)
    (Execute p w c msg) (List.mem_map.mpr ⟨c, hc, rfl⟩)

theorem mem_fanOutLog_of_returns (p : PredictorProcess) (w : Oracle) (node : PredictiveUnit)
    (msg : SeldonPayload) (hret : ∀ c ∈ node.Children, (Execute p w c msg).out ≠ .panic)
    (child : PredictiveUnit) (hchild : child ∈ node.Children) (c : Call)
    (hc : c ∈ (Execute p w child msg).log) : c ∈ fanOutLog p w node msg :=
  (fanOutLog_sublist p w node msg hret child hchild).subset hc

/-- Every backend call of `routeChildren` is the node's `Route` call on the
payload, a call of `Execute` on one of the children with the payload, or a
`Combine` call of the node. -/
theorem mem_routeChildren_log (p : PredictorProcess) (w : Oracle) (node : PredictiveUnit)
    (msg : SeldonPayload) (c : Call) (h : c ∈ (routeChildren p w node msg).log) :
    c = .Route node.Endpoint.ServiceHost node.Endpoint.ServicePort msg
      ∨ (∃ child ∈ node.Children, c ∈ (Execute p w child msg).log)
      ∨ ∃ ms, c = .Combine node.Endpoint.ServiceHost node.Endpoint.ServicePort ms := by
  unfold routeChildren routeChildrenWith at h
  split at h
  · rcases Run.mem_bind_log _ _ c h with h | ⟨r, _, h⟩
    · exact Or.inl (mem_route_log p w node msg c h)
    · split at h
      · simp [Run.pure] at h
      · split at h
        · rcases Run.mem_bind_log _ _ c h with h | ⟨s, _, h⟩
          · rw [fanOut_log_executeAll] at h
            exact Or.inr (Or.inl (mem_fanOutLog p w node msg c h))
          · split at h
            · simp [Run.pure] at h
            · exact Or.inr (Or.inr ⟨_, mem_aggregate_log p node _ c h⟩)
        · rcases Run.mem_bind_log _ _ c h with h | ⟨s, _, h⟩
          · unfold routed at h
            split at h
            · simp at h
            · rw [executeAll_eq_map, List.getD_eq_getElem?_getD, List.getElem?_map] at h
              cases hch : node.Children[r.1.toNat]? with
              | none => simp [hch] at h
              | some child =>
                simp only [hch, Option.map_some', Option.getD_some] at h
                exact Or.inr (Or.inl ⟨child, mem_of_getElem?_some hch, h⟩)
          · split at h
            · simp [Run.pure] at h
            · exact Or.inr (Or.inr ⟨_, mem_aggregate_log p node _ c h⟩)
  · simp [Run.pure] at h

/-- Every backend call of `Execute` belongs to its input transform, or to
`routeChildren` on the payload the input transform returned, or is the
`TransformOutput` call of the node. -/
theorem mem_Execute_log (p : PredictorProcess) (w : Oracle) (node : PredictiveUnit)
    (msg : SeldonPayload) (c : Call) (h : c ∈ (Execute p w node msg).log) :
    c ∈ (transformInput p node msg).log
      ∨ (∃ t, (transformInput p node msg).out = .ret (t, none)
          ∧ c ∈ (routeChildren p w node t).log)
      ∨ ∃ m, c = .TransformOutput node.Endpoint.ServiceHost node.Endpoint.ServicePort m := by
  rw [Execute_eq] at h
  rcases Run.mem_bind_log _ _ c h with h | ⟨⟨t, e⟩, ht, h⟩
  · exact Or.inl h
  · cases e with
    | some e => simp [Run.pure] at h
    | none =>
      simp only at h
      rcases Run.mem_bind_log _ _ c h with h | ⟨⟨cm, e⟩, _, h⟩
      · exact Or.inr (Or.inl ⟨t, ht, h⟩)
      · cases e with
        | some e => simp [Run.pure] at h
        | none => exact Or.inr (Or.inr ⟨cm, mem_transformOutput_log p node cm c h⟩)

/-- Every backend call of `Execute` on a node is issued on the endpoint of a
node of the tree rooted there. -/
theorem Execute_log_endpoint (p : PredictorProcess) (w : Oracle) :
    ∀ (node : PredictiveUnit) (msg : SeldonPayload) (c : Call),
      c ∈ (Execute p w node msg).log → ∃ n ∈ node.subtree, c.endpoint = n.Endpoint := by
  intro node
  induction node using PredictiveUnit.induct with
  | step node ih =>
    intro msg c hc
    have hself : node ∈ node.subtree := by rw [subtree_eq]; exact List.mem_cons_self _ _
    rcases mem_Execute_log p w node msg c hc with h | ⟨t, _, h⟩ | ⟨m, rfl⟩
    · rcases mem_transformInput_log p node msg c h with rfl | rfl <;>
        exact ⟨node, hself, rfl⟩
    · rcases mem_routeChildren_log p w node t c h with rfl | ⟨child, hchild, h⟩ | ⟨ms, rfl⟩
      · exact ⟨node, hself, rfl⟩
      · rcases ih child hchild t c h with ⟨n, hn, he⟩
        exact ⟨n, mem_subtree_of_child node child n hchild hn, he⟩
      · exact ⟨node, hself, rfl⟩
    · exact ⟨node, hself, rfl⟩

end Executor

namespace Executor

/-! ### C2 and C3: a leaf model, and a transformer in front of it -/

theorem Execute_leaf_model (p : PredictorProcess) (w : Oracle) (node : PredictiveUnit)
    (msg : SeldonPayload)
    (hT : node.Type_ = some .MODEL) (hC : node.Children = [])
    (hM : hasMethod .TRANSFORM_OUTPUT node.Methods = false) :
    Execute p w node msg =
      ⟨.ret (p.Client.Predict node.Endpoint.ServiceHost node.Endpoint.ServicePort msg),
        [.Predict node.Endpoint.ServiceHost node.Endpoint.ServicePort msg]⟩ := by
  have hti : transformInput p node msg = p.Predict node.Endpoint msg := by
    simp [transformInput, hT]
  have hto : ∀ x, transformOutput p node x = ⟨.ret (x, none), []⟩ := by
    intro x; simp [transformOutput, hT, hM, Run.pure]
  rw [Execute_eq, hti, PredictorProcess.Predict, Run.bind_ret]
  rcases p.Client.Predict node.Endpoint.ServiceHost node.Endpoint.ServicePort msg
    with ⟨pm, _ | e⟩
  · simp [routeChildren_leaf p w node pm hC, Run.bind_ret, hto]
  · simp [Run.pure]

/-- What `routeChildren` does on a transformer without methods whose only
child is a leaf model that does not declare TRANSFORM_OUTPUT. -/
theorem routeChildren_chain (p : PredictorProcess) (w : Oracle) (A B : PredictiveUnit)
    (t : SeldonPayload)
    (hA : A.Type_ = some .TRANSFORMER) (hAB : A.Children = [B])
    (hB : B.Type_ = some .MODEL) (hBl : B.Children = [])
    (hAm : ∀ m, hasMethod m A.Methods = false)
    (hBm : hasMethod .TRANSFORM_OUTPUT B.Methods = false) :
    routeChildren p w A t =
      ⟨.ret (p.Client.Predict B.Endpoint.ServiceHost B.Endpoint.ServicePort t),
        [.Predict B.Endpoint.ServiceHost B.Endpoint.ServicePort t]⟩ := by
  have hBrun := Execute_leaf_model p w B t hB hBl hBm
  have hagg : ∀ m, aggregate p A [m] = ⟨.ret (m, none), []⟩ := by
    intro m; simp [aggregate, hA, hAm, Run.pure]
  by_cases hI : A.Implementation = some .RANDOM_ABTEST
  · have hr : route p w A t = ⟨.ret (0, none), []⟩ := by
      simp [route, hA, hAm, hI, abTestRouter, hAB, Run.pure]
    rw [routeChildren_routed p w A B t 0 [] hr (le_refl _) (by simp [hAB]), hBrun]
    rcases p.Client.Predict B.Endpoint.ServiceHost B.Endpoint.ServicePort t with ⟨pm, _ | e⟩
    · simp [hagg]
    · simp
  · have hr : route p w A t = ⟨.ret (-1, none), []⟩ := by
      simp [route, hA, hAm, hI, Run.pure]
    have hlog : fanOutLog p w A t = [.Predict B.Endpoint.ServiceHost B.Endpoint.ServicePort t] := by
      simp [fanOutLog, hAB, concurrentLog_single, hBrun]
    rw [routeChildren_fanOut p w A t [] (by simp [hAB]) hr (by simp [hAB, hBrun]), hlog]
    simp only [hAB, List.map_cons, List.map_nil, hBrun, Run.payload, Run.err]
    rcases p.Client.Predict B.Endpoint.ServiceHost B.Endpoint.ServicePort t with ⟨pm, _ | e⟩
    · simp [firstError, hagg]
    · simp [firstError]

/-- C2, as amended.  For a node without children whose role is MODEL and which
does not declare TRANSFORM_OUTPUT, `Execute` returns the payload and the error
of the client's `Predict` on the node's endpoint, and that call is the only
backend call. -/
theorem C2_single_model (p : PredictorProcess) (w : Oracle) (node : PredictiveUnit)
    (msg : SeldonPayload)
    (hT : node.Type_ = some .MODEL) (hC : node.Children = [])
    (hM : hasMethod .TRANSFORM_OUTPUT node.Methods = false) :
    Execute p w node msg =
      ⟨.ret (p.Client.Predict node.Endpoint.ServiceHost node.Endpoint.ServicePort msg),
        [.Predict node.Endpoint.ServiceHost node.Endpoint.ServicePort msg]⟩ := by
  have hin : transformInput p node msg = p.Predict node.Endpoint msg := by
    simp [transformInput, hT]
  have hout : ∀ x, transformOutput p node x = ⟨.ret (x, none), []⟩ := by
    intro x; simp [transformOutput, hT, hM, Run.pure]
  rw [Execute_eq, hin, PredictorProcess.Predict, Run.bind_ret]
  cases hreply : p.Client.Predict node.Endpoint.ServiceHost node.Endpoint.ServicePort msg with
  | mk pm e =>
    cases e with
    | none => simp [routeChildren_leaf p w node pm hC, Run.bind_ret, hout]
    | some e => simp [Run.pure]

/-- C3, as amended.  In a chain of a TRANSFORMER `A` over a leaf MODEL `B`,
when `TransformInput` on `A` returns `t` without error, every `Predict` call
of the run is the call on `B` with payload `t`.  When moreover `A` declares no
method and `B` does not declare TRANSFORM_OUTPUT, the run consists of exactly
the `TransformInput` call on `A` and the `Predict` call on `B` with `t`, the
error `Execute` returns is the error of that `Predict`, and when that
`Predict` succeeds `Execute` returns exactly its result. -/
theorem C3_chain (p : PredictorProcess) (w : Oracle) (A B : PredictiveUnit)
    (P t : SeldonPayload)
    (hA : A.Type_ = some .TRANSFORMER) (hAB : A.Children = [B])
    (hB : B.Type_ = some .MODEL) (hBl : B.Children = [])
    (hTI : p.Client.TransformInput A.Endpoint.ServiceHost A.Endpoint.ServicePort P = (t, none)) :
    (∀ h q m, Call.Predict h q m ∈ (Execute p w A P).log →
        Call.Predict h q m = .Predict B.Endpoint.ServiceHost B.Endpoint.ServicePort t)
      ∧ ((∀ m, hasMethod m A.Methods = false) → hasMethod .TRANSFORM_OUTPUT B.Methods = false →
          (Execute p w A P).log =
              [.TransformInput A.Endpoint.ServiceHost A.Endpoint.ServicePort P,
                .Predict B.Endpoint.ServiceHost B.Endpoint.ServicePort t]
            ∧ (Execute p w A P).err
                = (p.Client.Predict B.Endpoint.ServiceHost B.Endpoint.ServicePort t).2
            ∧ ((p.Client.Predict B.Endpoint.ServiceHost B.Endpoint.ServicePort t).2 = none →
                (Execute p w A P).out
                  = .ret (p.Client.Predict B.Endpoint.ServiceHost B.Endpoint.ServicePort t))) := by
  have hti : transformInput p A P =
      ⟨.ret (t, none), [.TransformInput A.Endpoint.ServiceHost A.Endpoint.ServicePort P]⟩ := by
    simp [transformInput, hA, PredictorProcess.TransformInput, hTI]
  have htiB : transformInput p B t = p.Predict B.Endpoint t := by
    simp [transformInput, hB]
  constructor
  · intro h q m hc
    rcases mem_Execute_log p w A P _ hc with h₁ | ⟨t', ht', h₁⟩ | ⟨m', h₁⟩
    · rw [hti] at h₁; simp at h₁
    · rw [hti] at ht'
      simp only [Outcome.ret.injEq, Prod.mk.injEq, and_true] at ht'
      subst ht'
      rcases mem_routeChildren_log p w A t _ h₁ with h₂ | ⟨child, hchild, h₂⟩ | ⟨ms, h₂⟩
      · simp at h₂
      · rw [hAB, List.mem_singleton] at hchild
        subst hchild
        rcases mem_Execute_log p w child t _ h₂ with h₃ | ⟨t', _, h₃⟩ | ⟨m', h₃⟩
        · rw [htiB] at h₃
          simpa [PredictorProcess.Predict] using h₃
        · rw [routeChildren_leaf p w child t' hBl] at h₃; simp at h₃
        · simp at h₃
      · simp at h₂
    · simp at h₁
  · intro hAm hBm
    have hrc := routeChildren_chain p w A B t hA hAB hB hBl hAm hBm
    have hto : ∀ x, transformOutput p A x = ⟨.ret (x, none), []⟩ := by
      intro x; simp [transformOutput, hA, hAm, Run.pure]
    rw [Execute_eq, hti, Run.bind_ret]
    simp only [hrc, Run.bind_ret]
    rcases p.Client.Predict B.Endpoint.ServiceHost B.Endpoint.ServicePort t with ⟨pm, _ | e⟩
    · simp [hto, Run.err]
    · simp [Run.pure, Run.err]

/-- C2, as amended, on scenario S1. -/
theorem C2_single_model_witness :
    Execute demo lastFirst (leaf "m" .MODEL) (json "in")
      = ⟨.ret (json "in/m", none), [.Predict "m" 9000 (json "in")]⟩ :=
  C2_single_model demo lastFirst (leaf "m" .MODEL) (json "in") rfl rfl rfl

/-- C3, as amended, on scenario S2. -/
theorem C3_chain_witness :
    (Execute demo lastFirst chain (json "in")).log
        = [.TransformInput "t" 9000 (json "in"), .Predict "m" 9000 (json "in/t")]
      ∧ (Execute demo lastFirst chain (json "in")).err = none
      ∧ (Execute demo lastFirst chain (json "in")).out = .ret (json "in/t/m", none) :=
  have h := (C3_chain demo lastFirst chain (leaf "m" .MODEL) (json "in") (json "in/t")
    rfl rfl rfl rfl (by decide)).2 (fun m => by cases m <;> rfl) rfl
  ⟨h.1, h.2.1, h.2.2 (by decide)⟩

/-- C3 as stated fails in two ways.  When the model declares TRANSFORM_OUTPUT,
the final output is what its output transform makes of the prediction; and
when the model's `Predict` fails, `Execute` returns the error with the
payload of the transformer, not with the payload of the failed `Predict`. -/
theorem C3_counterexample :
    (chainWithOutput.Type_ = some .TRANSFORMER ∧ chainWithOutput.Children = [modelWithOutput]
        ∧ chainWithOutput.Methods = none
        ∧ modelWithOutput.Type_ = some .MODEL ∧ modelWithOutput.Children = []
        ∧ demo.Client.TransformInput "t" 9000 (json "in") = (json "in/t", none)
        ∧ demo.Client.Predict "m" 9000 (json "in/t") = (json "in/t/m", none)
        ∧ (Execute demo lastFirst chainWithOutput (json "in")).out
            = .ret (json "in/t/m!m", none))
      ∧ (chainDown.Type_ = some .TRANSFORMER ∧ chainDown.Children = [leaf "down" .MODEL]
        ∧ chainDown.Methods = none
        ∧ (leaf "down" .MODEL).Type_ = some .MODEL ∧ (leaf "down" .MODEL).Children = []
        ∧ (leaf "down" .MODEL).Methods = none
        ∧ demo.Client.TransformInput "t" 9000 (json "in") = (json "in/t", none)
        ∧ demo.Client.Predict "down" 9000 (json "in/t") = (none, some "status code 500")
        ∧ (Execute demo lastFirst chainDown (json "in")).out
            = .ret (json "in/t", some "status code 500")) :=
  ⟨⟨rfl, rfl, rfl, rfl, rfl, by decide, by decide, by decide⟩,
    ⟨rfl, rfl, rfl, rfl, rfl, rfl, by decide, by decide, by decide⟩⟩

end Executor

namespace Executor

/-! ### What a run returns does not depend on the order of completion -/

theorem Run.bind_out_congr {α β : Type} {r r' : Run α} {f f' : α → Run β}
    (h : r.out = r'.out) (hf : ∀ a, (f a).out = (f' a).out) :
    (r.bind f).out = (r'.bind f').out := by
  obtain ⟨out, l⟩ := r
  obtain ⟨out', l'⟩ := r'
  simp only at h
  subst h
  cases out with
  | panic => rfl
  | ret a => exact hf a

theorem payload_of_out {r r' : Run Reply} (h : r.out = r'.out) : r.payload = r'.payload := by
  simp [Run.payload, h]

theorem err_of_out {r r' : Run Reply} (h : r.out = r'.out) : r.err = r'.err := by
  simp [Run.err, h]

theorem map_of_outs {β : Type} (f : Run Reply → β)
    (hf : ∀ r r' : Run Reply, r.out = r'.out → f r = f r') :
    ∀ (runs runs' : List (Run Reply)),
      runs.map (fun r => r.out) = runs'.map (fun r => r.out) → runs.map f = runs'.map f
  | [], [], _ => rfl
  | [], _ :: _, h => by simp at h
  | _ :: _, [], h => by simp at h
  | r :: rs, r' :: rs', h => by
    simp only [List.map_cons, List.cons.injEq] at h
    simp only [List.map_cons, hf r r' h.1, map_of_outs f hf rs rs' h.2]

theorem fanOut_out_congr (times times' pick pick' : Nat → Nat) (runs runs' : List (Run Reply))
    (h : runs.map (fun r => r.out) = runs'.map (fun r => r.out)) :
    (fanOut times pick runs).out = (fanOut times' pick' runs').out := by
  have hany : (runs.any fun r => decide (r.out = .panic))
      = (runs'.any fun r => decide (r.out = .panic)) := by
    have key : ∀ l : List (Run Reply), (l.any fun r => decide (r.out = .panic))
        = ((l.map fun r => r.out).any fun o => decide (o = Outcome.panic)) := by
      intro l
      induction l with
      | nil => rfl
      | cons r rs ih => simp only [List.any_cons, List.map_cons, ih]
    rw [key runs, key runs', h]
  by_cases hp : ∀ r ∈ runs, r.out ≠ .panic
  · have hp' : ∀ r ∈ runs', r.out ≠ .panic := by
      have h₁ : (runs.any fun r => decide (r.out = .panic)) = false := by
        rw [List.any_eq_false]; intro r hr; simpa using hp r hr
      rw [hany, List.any_eq_false] at h₁
      intro r hr; simpa using h₁ r hr
    rw [fanOut_of_returns times pick runs hp, fanOut_of_returns times' pick' runs' hp']
    simp only
    rw [map_of_outs Run.payload (fun _ _ => payload_of_out) runs runs' h,
      map_of_outs Run.err (fun _ _ => err_of_out) runs runs' h]
  · have h₁ : (runs.any fun r => decide (r.out = .panic)) = true := by
      rw [List.any_eq_true]
      by_contra hcon
      exact hp (fun r hr hrp => hcon ⟨r, hr, by simpa using hrp⟩)
    have h₂ := hany ▸ h₁
    simp [fanOut, h₁, h₂]

theorem routed_out_congr (runs runs' : List (Run Reply)) (k : Int)
    (h : runs.map (fun r => r.out) = runs'.map (fun r => r.out)) :
    (routed runs k).out = (routed runs' k).out := by
  have hlen : runs.length = runs'.length := by
    simpa using congrArg List.length h
  have hget : ∀ i : Nat, (runs[i]?).map (fun r : Run Reply => r.out)
      = (runs'[i]?).map (fun r : Run Reply => r.out) := by
    intro i
    have := congrArg (fun l => l[i]?) h
    simpa using this
  unfold routed
  rw [hlen]
  split
  · rfl
  · have := hget k.toNat
    simp only [List.getD_eq_getElem?_getD]
    cases h₁ : runs[k.toNat]? <;> cases h₂ : runs'[k.toNat]? <;> simp [h₁, h₂] at this ⊢
    exact this

theorem route_congr (p : PredictorProcess) (w w' : Oracle) (hd : w'.draw = w.draw)
    (node : PredictiveUnit) (msg : SeldonPayload) :
    route p w' node msg = route p w node msg := by
  simp [route, abTestRouter, hd]

theorem routeChildrenWith_out_congr (p : PredictorProcess) (w w' : Oracle)
    (hd : w'.draw = w.draw) (node : PredictiveUnit) (msg : SeldonPayload)
    (runs runs' : List (Run Reply))
    (h : runs'.map (fun r => r.out) = runs.map (fun r => r.out)) :
    (routeChildrenWith p w' node msg runs').out = (routeChildrenWith p w node msg runs).out := by
  unfold routeChildrenWith
  rw [route_congr p w w' hd]
  split
  · apply Run.bind_out_congr rfl
    intro r
    split
    · rfl
    · split
      · exact Run.bind_out_congr (fanOut_out_congr _ _ _ _ _ _ h) (fun _ => rfl)
      · exact Run.bind_out_congr (routed_out_congr _ _ _ h) (fun _ => rfl)
  · rfl

/-- What `Execute` returns (or whether it panics) is the same for two oracles
with the same random draws, whatever the completion times they give. -/
theorem Execute_out_congr (p : PredictorProcess) (w w' : Oracle) (hd : w'.draw = w.draw) :
    ∀ (node : PredictiveUnit) (msg : SeldonPayload),
      (Execute p w' node msg).out = (Execute p w node msg).out := by
  intro node
  induction node using PredictiveUnit.induct with
  | step node ih =>
    intro msg
    rw [Execute_eq, Execute_eq]
    apply Run.bind_out_congr rfl
    intro t
    split
    · rfl
    · apply Run.bind_out_congr
      · unfold routeChildren
        apply routeChildrenWith_out_congr p w w' hd
        rw [executeAll_eq_map, executeAll_eq_map, List.map_map, List.map_map]
        apply List.map_congr_left
        intro c hc
        exact ih c hc t.1
      · intro _; rfl

theorem routeChildren_out_congr (p : PredictorProcess) (w w' : Oracle) (hd : w'.draw = w.draw)
    (node : PredictiveUnit) (msg : SeldonPayload) :
    (routeChildren p w' node msg).out = (routeChildren p w node msg).out := by
  unfold routeChildren
  apply routeChildrenWith_out_congr p w w' hd
  rw [executeAll_eq_map, executeAll_eq_map, List.map_map, List.map_map]
  apply List.map_congr_left
  intro c _
  exact Execute_out_congr p w w' hd c msg

end Executor

namespace Executor

/-! ### C4: a routed node -/

/-- C4. When the `Route` call of a ROUTER on payload `t` returns an index `k`
that selects the child `child` (so `0 ≤ k < len(children)`), the backend calls
of `routeChildren` are: the `Route` call, then those of one run of `Execute`
on `child` with `t`, then (only if that run returned without error) those of
`aggregate` on its result.  Hence every call is on the endpoint of the router
or of a node under `child`, and no call is made on the endpoint of a node
under any other child, unless that endpoint is also the router's or that of a
node under `child`. -/
theorem C4_router_frame (p : PredictorProcess) (w : Oracle) (node child : PredictiveUnit)
    (t : SeldonPayload) (k : Int)
    (hT : node.Type_ = some .ROUTER)
    (hk : p.Client.Route node.Endpoint.ServiceHost node.Endpoint.ServicePort t = (k, none))
    (h0 : 0 ≤ k) (hchild : node.Children[k.toNat]? = some child) :
    (routeChildren p w node t).log =
        .Route node.Endpoint.ServiceHost node.Endpoint.ServicePort t ::
          ((Execute p w child t).log ++
            (match (Execute p w child t).out with
              | .ret (cm, none) => (aggregate p node [cm]).log
              | _ => []))
      ∧ (∀ c ∈ (routeChildren p w node t).log,
          c.endpoint = node.Endpoint ∨ ∃ n ∈ child.subtree, c.endpoint = n.Endpoint)
      ∧ (∀ other ∈ node.Children, ∀ n ∈ other.subtree,
          n.Endpoint ≠ node.Endpoint → (∀ n' ∈ child.subtree, n'.Endpoint ≠ n.Endpoint) →
            ∀ c ∈ (routeChildren p w node t).log, c.endpoint ≠ n.Endpoint) := by
  have hr : route p w node t =
      ⟨.ret (k, none), [.Route node.Endpoint.ServiceHost node.Endpoint.ServicePort t]⟩ := by
    simp [route, hT, PredictorProcess.Route, hk]
  have hlog : (routeChildren p w node t).log =
      .Route node.Endpoint.ServiceHost node.Endpoint.ServicePort t ::
        ((Execute p w child t).log ++
          (match (Execute p w child t).out with
            | .ret (cm, none) => (aggregate p node [cm]).log
            | _ => [])) := by
    rw [routeChildren_routed p w node child t k _ hr h0 hchild]
    rcases (Execute p w child t).out with ⟨cm, _ | e⟩ | _ <;> simp
  have hframe : ∀ c ∈ (routeChildren p w node t).log,
      c.endpoint = node.Endpoint ∨ ∃ n ∈ child.subtree, c.endpoint = n.Endpoint := by
    intro c hc
    rw [hlog] at hc
    rcases List.mem_cons.mp hc with rfl | hc
    · exact Or.inl rfl
    · rcases List.mem_append.mp hc with hc | hc
      · exact Or.inr (Execute_log_endpoint p w child t c hc)
      · left
        split at hc
        · rw [mem_aggregate_log p node _ c hc]; rfl
        · simp at hc
  refine ⟨hlog, hframe, ?_⟩
  intro other _ n _ hne hdisj c hc heq
  rcases hframe c hc with h | ⟨n', hn', h⟩
  · exact hne (heq.symm.trans h)
  · exact hdisj n' hn' (h.symm.trans heq)

/-- C4 on scenario S3: the router answers 1, so only `b` is called. -/
theorem C4_router_frame_witness :
    (routeChildren demo lastFirst (router "r1") (json "in")).log
        = [.Route "r1" 9000 (json "in"), .Predict "b" 9000 (json "in")]
      ∧ ∀ c ∈ (routeChildren demo lastFirst (router "r1") (json "in")).log,
          c.endpoint ≠ (leaf "a" .MODEL).Endpoint :=
  have h := C4_router_frame demo lastFirst (router "r1") (leaf "b" .MODEL) (json "in") 1
    rfl (by decide) (by decide) rfl
  ⟨h.1, h.2.2 (leaf "a" .MODEL) (by simp [router, PredictiveUnit.Children])
    (leaf "a" .MODEL) (by simp [leaf, PredictiveUnit.subtree, subtreeAll]) (by decide)
    (by simp [leaf, PredictiveUnit.subtree, subtreeAll, PredictiveUnit.Endpoint])⟩

/-! ### C5 and C6: the fan-out -/

theorem firstError_of_runs (runs : List (Run Reply)) :
    (firstError (runs.map Run.payload) (runs.map Run.err) = none
        ∧ ∀ r ∈ runs, r.err = none)
      ∨ ∃ (i : Nat) (r : Run Reply) (e : String),
          runs[i]? = some r ∧ r.err = some e
            ∧ (∀ j r', j < i → runs[j]? = some r' → r'.err = none)
            ∧ firstError (runs.map Run.payload) (runs.map Run.err)
                = some (r.payload, some e) := by
  induction runs with
  | nil => left; simp [firstError]
  | cons r rs ih =>
    cases he : r.err with
    | some e =>
      right
      exact ⟨0, r, e, by simp, he, by intro j r' hj; omega, by simp [firstError, he]⟩
    | none =>
      rcases ih with ⟨h₁, h₂⟩ | ⟨i, r₁, e, h₀, h₁, h₂, h₃⟩
      · left
        refine ⟨by simp [firstError, he, h₁], ?_⟩
        intro x hx
        rcases List.mem_cons.mp hx with rfl | hx
        · exact he
        · exact h₂ x hx
      · right
        refine ⟨i + 1, r₁, e, by simpa using h₀, h₁, ?_, by simp [firstError, he, h₃]⟩
        intro j r' hj hr'
        cases j with
        | zero =>
          simp only [List.getElem?_cons_zero, Option.some.injEq] at hr'
          subst hr'; exact he
        | succ j => exact h₂ j r' (by omega) (by simpa using hr')

theorem firstError_of_children (p : PredictorProcess) (w : Oracle)
    (cs : List PredictiveUnit) (t : SeldonPayload) :
    (firstError (cs.map fun c => (Execute p w c t).payload)
          (cs.map fun c => (Execute p w c t).err) = none
        ∧ ∀ c ∈ cs, (Execute p w c t).err = none)
      ∨ ∃ (i : Nat) (child : PredictiveUnit) (e : String),
          cs[i]? = some child ∧ (Execute p w child t).err = some e
            ∧ (∀ j c, j < i → cs[j]? = some c → (Execute p w c t).err = none)
            ∧ firstError (cs.map fun c => (Execute p w c t).payload)
                (cs.map fun c => (Execute p w c t).err)
                = some ((Execute p w child t).payload, some e) := by
  have h := firstError_of_runs (cs.map fun c => Execute p w c t)
  simp only [List.map_map, List.mem_map, forall_exists_index, and_imp,
    forall_apply_eq_imp_iff₂, List.getElem?_map, Option.map_eq_some'] at h
  rcases h with ⟨h₁, h₂⟩ | ⟨i, r, e, ⟨child, hc, rfl⟩, h₁, h₂, h₃⟩
  · exact Or.inl ⟨h₁, h₂⟩
  · refine Or.inr ⟨i, child, e, hc, h₁, ?_, h₃⟩
    intro j c hj hjc
    exact h₂ j _ hj c hjc rfl

/-- C5. When a node has `N ≥ 1` children, its route step yields -1 and every
child's `Execute` succeeds, then: whatever the completion times and the
interleaving of the goroutines, the slice `cmsgs` that the fan-out leaves
after `wg.Wait()` has length `N` and holds in slot `i` the payload `Execute`
returned for child `i`; `routeChildren` returns what `aggregate` returns on
that slice; between the route step and the aggregation the backend calls are
exactly those of one run of `Execute` on each child with the same payload `t`
(they interleave: taken together they are the calls of those runs, each call
as often as it occurs there, and the calls of each child occur in that
child's order); and what `routeChildren` returns is the same under any other
schedule. -/
theorem C5_fanOut_child_order (p : PredictorProcess) (w : Oracle) (node : PredictiveUnit)
    (t : SeldonPayload) (l : List Call)
    (hN : 1 ≤ node.Children.length)
    (hr : route p w node t = ⟨.ret (-1, none), l⟩)
    (hok : ∀ c ∈ node.Children, ∃ m, (Execute p w c t).out = .ret (m, none)) :
    (∀ times pick : Nat → Nat, ∃ (cmsgs : List SeldonPayload) (errs : List GoError),
        (fanOut times pick (node.Children.map fun c => Execute p w c t)).out
            = .ret (cmsgs, errs)
          ∧ cmsgs = (node.Children.map fun c => (Execute p w c t).payload)
          ∧ cmsgs.length = node.Children.length
          ∧ ∀ (i : Nat) (child : PredictiveUnit), node.Children[i]? = some child →
              cmsgs[i]? = some (Execute p w child t).payload)
      ∧ (∃ fan : List Call,
          routeChildren p w node t =
            ⟨(aggregate p node (node.Children.map fun c => (Execute p w c t).payload)).out,
              l ++ (fan ++ (aggregate p node
                (node.Children.map fun c => (Execute p w c t).payload)).log)⟩
          ∧ fan.Perm ((node.Children.map fun c => (Execute p w c t).log).flatten)
          ∧ ∀ c ∈ node.Children, ((Execute p w c t).log).Sublist fan)
      ∧ (∀ w' : Oracle, w'.draw = w.draw →
          (routeChildren p w' node t).out = (routeChildren p w node t).out) := by
  have hne : node.Children ≠ [] := by
    intro h; rw [h] at hN; simp at hN
  have hret : ∀ c ∈ node.Children, (Execute p w c t).out ≠ .panic := by
    intro c hc
    rcases hok c hc with ⟨m, hm⟩
    simp [hm]
  have herr : ∀ c ∈ node.Children, (Execute p w c t).err = none := by
    intro c hc
    rcases hok c hc with ⟨m, hm⟩
    simp [Run.err, hm]
  refine ⟨?_, ⟨fanOutLog p w node t, ?_, fanOutLog_perm p w node t hret,
    fanOutLog_sublist p w node t hret⟩, fun w' hd => routeChildren_out_congr p w w' hd node t⟩
  · intro times pick
    refine ⟨node.Children.map fun c => (Execute p w c t).payload,
      node.Children.map fun c => (Execute p w c t).err, ?_, rfl, by simp, ?_⟩
    · rw [fanOut_of_returns times pick _ (returns_of_children p w node t hret)]
      simp only [List.map_map]
      rfl
    · intro i child hi
      simp [hi]
  · rw [routeChildren_fanOut p w node t l hne hr hret]
    rcases firstError_of_children p w node.Children t with ⟨h₁, _⟩ | ⟨i, child, e, hc, he, _⟩
    · rw [h₁]
    · rw [herr child (mem_of_getElem?_some hc)] at he
      cases he

/-- C5 on scenario S4, the second model calling and completing first: the
combiner is sent the two replies in child order. -/
theorem C5_fanOut_child_order_witness :
    routeChildren demo lastFirst combiner (json "in") =
        ⟨.ret (json "[in/m1,in/m2]", none),
          [.Predict "m2" 9000 (json "in"), .Predict "m1" 9000 (json "in"),
            .Combine "c" 9000 [json "in/m1", json "in/m2"]]⟩
      ∧ (routeChildren demo lastFirst combiner (json "in")).out
        = (aggregate demo combiner
            (combiner.Children.map fun c => (Execute demo lastFirst c (json "in")).payload)).out
      ∧ (routeChildren demo firstFirst combiner (json "in")).out
        = (routeChildren demo lastFirst combiner (json "in")).out :=
  have h := C5_fanOut_child_order demo lastFirst combiner (json "in") [] (by decide)
    (by decide)
    (by
      intro c hc
      simp only [combiner, PredictiveUnit.Children, List.mem_cons, List.mem_singleton,
        List.not_mem_nil, or_false] at hc
      rcases hc with rfl | rfl
      · exact ⟨json "in/m1", by decide⟩
      · exact ⟨json "in/m2", by decide⟩)
  ⟨by decide,
    match h.2.1 with
    | ⟨_, hrc, _, _⟩ => by rw [hrc],
    h.2.2 firstFirst rfl⟩

/-- In a fan-out in which every child's `Execute` returns and at least one
returns an error, `routeChildren` returns the error of the failing child of
lowest index, with that child's payload, after the calls of the runs of all
the children and without a `Combine` call of the node. -/
theorem routeChildren_fanOut_first_error (p : PredictorProcess) (w : Oracle)
    (node : PredictiveUnit) (t : SeldonPayload) (l : List Call)
    (hr : route p w node t = ⟨.ret (-1, none), l⟩)
    (hret : ∀ c ∈ node.Children, (Execute p w c t).out ≠ .panic)
    (hfail : ∃ c ∈ node.Children, (Execute p w c t).err ≠ none) :
    ∃ (i : Nat) (child : PredictiveUnit) (e : String),
      node.Children[i]? = some child ∧ (Execute p w child t).err = some e
        ∧ (∀ j c, j < i → node.Children[j]? = some c → (Execute p w c t).err = none)
        ∧ routeChildren p w node t =
            ⟨.ret ((Execute p w child t).payload, some e), l ++ fanOutLog p w node t⟩ := by
  rcases hfail with ⟨c₀, hc₀, hc₀e⟩
  have hne : node.Children ≠ [] := List.ne_nil_of_mem hc₀
  rcases firstError_of_children p w node.Children t with ⟨_, h₂⟩ | ⟨i, child, e, hc, he, hlow, hf⟩
  · exact absurd (h₂ c₀ hc₀) hc₀e
  · refine ⟨i, child, e, hc, he, hlow, ?_⟩
    rw [routeChildren_fanOut p w node t l hne hr hret, hf]

/-- Scenario S5, the second model calling first: the error of the first model
is returned after both models were called, and the combiner is not called. -/
theorem routeChildren_S5 :
    routeChildren demo lastFirst combinerDown (json "in")
      = ⟨.ret (none, some "status code 500"),
          [.Predict "m2" 9000 (json "in"), .Predict "down" 9000 (json "in")]⟩ := by
  decide

/-- C6. The code on a fan-out (a combiner, whose route step yields -1) over a
model whose backend is down and a router whose backend answers 7, an index
outside its two children.  The first child's `Execute` fails with the error
of its `Predict`; the second child's `Execute` panics at the index, and a
panic in a goroutine ends the process: under every schedule `routeChildren`
panics, so that it does not return the error of the first child. -/
theorem C6_fanOut_sibling_panic :
    route demo firstFirst combinerCrash (json "in") = ⟨.ret (-1, none), []⟩
      ∧ combinerCrash.Children = [leaf "down" .MODEL, router "r7"]
      ∧ Execute demo firstFirst (leaf "down" .MODEL) (json "in")
          = ⟨.ret (none, some "status code 500"), [.Predict "down" 9000 (json "in")]⟩
      ∧ Execute demo firstFirst (router "r7") (json "in")
          = ⟨.panic, [.Route "r7" 9000 (json "in")]⟩
      ∧ routeChildren demo firstFirst combinerCrash (json "in")
          = ⟨.panic, [.Predict "down" 9000 (json "in"), .Route "r7" 9000 (json "in")]⟩
      ∧ (∀ w : Oracle, (routeChildren demo w combinerCrash (json "in")).out = .panic)
      ∧ (∀ w : Oracle, (routeChildren demo w combinerCrash (json "in")).err = none) :=
  ⟨by decide, rfl, by decide, by decide, by decide, fun _ => rfl, fun _ => rfl⟩

/-! ### C7: a route index outside the children -/

/-- C7. The code at the failing inputs: a router over two children whose
`Route` call returns 7, and one whose `Route` call returns -2.  No child is
executed (the `Route` call is the only backend call), but `routeChildren` and
`Execute` do not return an error: indexing the children panics. -/
theorem C7_route_out_of_range_panics :
    (router "r7").Children.length = 2
      ∧ demo.Client.Route "r7" 9000 (json "in") = (7, none)
      ∧ routeChildren demo lastFirst (router "r7") (json "in")
          = ⟨.panic, [.Route "r7" 9000 (json "in")]⟩
      ∧ Execute demo lastFirst (router "r7") (json "in")
          = ⟨.panic, [.Route "r7" 9000 (json "in")]⟩
      ∧ demo.Client.Route "rneg" 9000 (json "in") = (-2, none)
      ∧ routeChildren demo lastFirst (router "rneg") (json "in")
          = ⟨.panic, [.Route "rneg" 9000 (json "in")]⟩
      ∧ Execute demo lastFirst (router "rneg") (json "in")
          = ⟨.panic, [.Route "rneg" 9000 (json "in")]⟩ :=
  ⟨rfl, by decide, by decide, by decide, by decide, by decide, by decide⟩

end Executor

namespace Executor

/-! ### C8: errors come from backend calls and stop the node -/

theorem accounted_nil (p : PredictorProcess) : Accounted p none [] :=
  ⟨fun s h => (by cases h), fun _ c hc => (by cases hc)⟩

theorem accounted_single (p : PredictorProcess) (c : Call) :
    Accounted p (p.errOf c) [c] :=
  ⟨fun s h => ⟨c, List.mem_singleton.mpr rfl, h⟩,
    fun h d hd => by rw [List.mem_singleton.mp hd]; exact h⟩

theorem accounted_some_of_mem (p : PredictorProcess) (s : String) (log : List Call) (c : Call)
    (hc : c ∈ log) (he : p.errOf c = some s) : Accounted p (some s) log :=
  ⟨fun s' h => by cases h; exact ⟨c, hc, he⟩, fun h => by cases h⟩

theorem accounted_append (p : PredictorProcess) (e : GoError) (l₁ l₂ : List Call)
    (h₁ : Clean p l₁) (h₂ : Accounted p e l₂) : Accounted p e (l₁ ++ l₂) := by
  constructor
  · intro s hs
    rcases h₂.1 s hs with ⟨c, hc, he⟩
    exact ⟨c, List.mem_append_right _ hc, he⟩
  · intro hn c hc
    rcases List.mem_append.mp hc with hc | hc
    · exact h₁ c hc
    · exact h₂.2 hn c hc

theorem clean_of_accounted (p : PredictorProcess) (log : List Call)
    (h : Accounted p none log) : Clean p log := h.2 rfl

theorem faithful_transformInput (p : PredictorProcess) (node : PredictiveUnit)
    (msg : SeldonPayload) :
    ∃ a, (transformInput p node msg).out = .ret a
      ∧ Accounted p a.2 (transformInput p node msg).log := by
  unfold transformInput
  split
  · exact ⟨_, rfl, accounted_single p (.Predict _ _ msg)⟩
  · exact ⟨_, rfl, accounted_single p (.TransformInput _ _ msg)⟩
  · split
    · exact ⟨_, rfl, accounted_single p (.TransformInput _ _ msg)⟩
    · exact ⟨_, rfl, accounted_nil p⟩

theorem faithful_transformOutput (p : PredictorProcess) (node : PredictiveUnit)
    (msg : SeldonPayload) :
    ∃ a, (transformOutput p node msg).out = .ret a
      ∧ Accounted p a.2 (transformOutput p node msg).log := by
  unfold transformOutput
  split
  · exact ⟨_, rfl, accounted_single p (.TransformOutput _ _ msg)⟩
  · split
    · exact ⟨_, rfl, accounted_single p (.TransformOutput _ _ msg)⟩
    · exact ⟨_, rfl, accounted_nil p⟩

theorem faithful_route (p : PredictorProcess) (w : Oracle) (node : PredictiveUnit)
    (msg : SeldonPayload) :
    ∃ a, (route p w node msg).out = .ret a ∧ Accounted p a.2 (route p w node msg).log := by
  unfold route
  split
  · exact ⟨_, rfl, accounted_single p (.Route _ _ msg)⟩
  · split
    · exact ⟨_, rfl, accounted_single p (.Route _ _ msg)⟩
    · split
      · exact ⟨_, rfl, accounted_nil p⟩
      · exact ⟨_, rfl, accounted_nil p⟩

theorem faithful_aggregate (p : PredictorProcess) (node : PredictiveUnit)
    (msgs : List SeldonPayload) : Faithful p (aggregate p node msgs) := by
  unfold aggregate
  split
  · intro a ha; cases ha; exact accounted_single p (.Combine _ _ msgs)
  · split
    · intro a ha; cases ha; exact accounted_single p (.Combine _ _ msgs)
    · split
      · intro a ha; cases ha
      · intro a ha; cases ha; exact accounted_nil p

theorem routeChildren_fanOut_panic (p : PredictorProcess) (w : Oracle) (node : PredictiveUnit)
    (t : SeldonPayload) (l : List Call)
    (hne : node.Children ≠ [])
    (hr : route p w node t = ⟨.ret (-1, none), l⟩)
    (hp : ∃ c ∈ node.Children, (Execute p w c t).out = .panic) :
    (routeChildren p w node t).out = .panic := by
  have hlen : node.Children.length > 0 := List.length_pos.mpr hne
  have hany : ((executeAll p w node.Children t).any fun r => decide (r.out = .panic)) = true := by
    rw [executeAll_eq_map, List.any_eq_true]
    rcases hp with ⟨c, hc, hcp⟩
    exact ⟨_, List.mem_map.mpr ⟨c, hc, rfl⟩, by simpa using hcp⟩
  simp [routeChildren, routeChildrenWith, hlen, hr, Run.bind_ret, fanOut, hany, Run.bind_panic]

theorem run_eta {α : Type} (r : Run α) (a : α) (h : r.out = .ret a) : r = ⟨.ret a, r.log⟩ := by
  obtain ⟨out, log⟩ := r
  simp only at h
  rw [h]

theorem out_of_not_panic (r : Run Reply) (h : r.out ≠ .panic) :
    r.out = .ret (r.payload, r.err) := by
  obtain ⟨out, log⟩ := r
  cases out with
  | panic => exact absurd rfl h
  | ret a => rfl

theorem faithful_routeChildren (p : PredictorProcess) (w : Oracle) (node : PredictiveUnit)
    (t : SeldonPayload)
    (ih : ∀ c ∈ node.Children, ∀ m, Faithful p (Execute p w c m)) :
    Faithful p (routeChildren p w node t) := by
  by_cases hne : node.Children = []
  · rw [routeChildren_leaf p w node t hne]
    intro a ha; cases ha; exact accounted_nil p
  · rcases faithful_route p w node t with ⟨⟨k, e⟩, hk, hacc⟩
    have hr := run_eta _ _ hk
    cases e with
    | some s =>
      rw [routeChildren_route_error p w node t k s _ hne hr]
      intro a ha; cases ha; exact hacc
    | none =>
      have hclean : Clean p (route p w node t).log := clean_of_accounted p _ hacc
      by_cases hk1 : k = -1
      · subst hk1
        by_cases hp : ∀ c ∈ node.Children, (Execute p w c t).out ≠ .panic
        · rw [routeChildren_fanOut p w node t _ hne hr hp]
          have hchild : ∀ c ∈ node.Children, Accounted p (Execute p w c t).err
              (Execute p w c t).log := by
            intro c hc
            exact ih c hc t _ (out_of_not_panic _ (hp c hc))
          rcases firstError_of_children p w node.Children t with
            ⟨h₁, h₂⟩ | ⟨i, child, s, hc, he, _, hf⟩
          · rw [h₁]
            have hfan : Clean p (fanOutLog p w node t) := by
              intro c hc
              rcases mem_fanOutLog p w node t c hc with ⟨child, hchild', hc'⟩
              have := hchild child hchild'
              rw [h₂ child hchild'] at this
              exact this.2 rfl c hc'
            intro a ha
            exact accounted_append p _ _ _ hclean
              (accounted_append p _ _ _ hfan (faithful_aggregate p node _ a ha))
          · rw [hf]
            intro a ha
            cases ha
            have hmem := mem_of_getElem?_some hc
            have := hchild child hmem
            rw [he] at this
            rcases this.1 s rfl with ⟨c, hc', hce⟩
            exact accounted_some_of_mem p s _ c
              (List.mem_append_right _
                (mem_fanOutLog_of_returns p w node t hp child hmem c hc')) hce
        · have hp' : ∃ c ∈ node.Children, (Execute p w c t).out = .panic := by
            by_contra hcon
            exact hp (fun c hc h => hcon ⟨c, hc, h⟩)
          intro a ha
          rw [routeChildren_fanOut_panic p w node t _ hne hr hp'] at ha
          cases ha
      · by_cases hin : 0 ≤ k ∧ k < node.Children.length
        · have hlt : k.toNat < node.Children.length := by omega
          have hc : node.Children[k.toNat]? = some node.Children[k.toNat] :=
            List.getElem?_eq_getElem hlt
          have hmem : node.Children[k.toNat] ∈ node.Children := List.getElem_mem hlt
          rw [routeChildren_routed p w node _ t k _ hr hin.1 hc]
          have hF := ih _ hmem t
          rcases hout : (Execute p w node.Children[k.toNat] t).out with ⟨cm, _ | s⟩ | _
          · intro a ha
            have hcl : Clean p (Execute p w node.Children[k.toNat] t).log :=
              clean_of_accounted p _ (hF _ hout)
            exact accounted_append p _ _ _ hclean
              (accounted_append p _ _ _ hcl (faithful_aggregate p node _ a ha))
          · intro a ha
            cases ha
            rcases (hF _ hout).1 s rfl with ⟨c, hc', hce⟩
            exact accounted_some_of_mem p s _ c (List.mem_append_right _ hc') hce
          · intro a ha; cases ha
        · rw [routeChildren_out_of_range p w node t k _ hne hr (by omega)]
          intro a ha; cases ha

theorem faithful_Execute (p : PredictorProcess) (w : Oracle) :
    ∀ (node : PredictiveUnit) (msg : SeldonPayload), Faithful p (Execute p w node msg) := by
  intro node
  induction node using PredictiveUnit.induct with
  | step node ih =>
    intro msg
    rcases faithful_transformInput p node msg with ⟨⟨t, e⟩, ht, hacc⟩
    rw [Execute_eq, run_eta _ _ ht, Run.bind_ret]
    cases e with
    | some s =>
      intro a ha
      cases ha
      simpa [Run.pure] using hacc
    | none =>
      have hcl₁ := clean_of_accounted p _ hacc
      have hF := faithful_routeChildren p w node t ih
      simp only
      rcases hout : (routeChildren p w node t).out with ⟨cm, _ | s⟩ | _
      · rw [run_eta _ _ hout, Run.bind_ret]
        have hcl₂ := clean_of_accounted p _ (hF _ hout)
        rcases faithful_transformOutput p node cm with ⟨b, hb, haccb⟩
        intro a ha
        simp only at ha
        rw [hb] at ha
        cases ha
        exact accounted_append p _ _ _ hcl₁ (accounted_append p _ _ _ hcl₂ haccb)
      · rw [run_eta _ _ hout, Run.bind_ret]
        intro a ha
        cases ha
        simp only [Run.pure, List.append_nil]
        rcases (hF _ hout).1 s rfl with ⟨c, hc, hce⟩
        exact accounted_some_of_mem p s _ c (List.mem_append_right _ hc) hce
      · intro a ha
        simp only [Run.bind, hout] at ha
        cases ha

end Executor

namespace Executor

/-- A run of `Execute` that returns, returns an error exactly when some backend
call of the run was answered with an error, and the error returned is,
unchanged, the error of such a call.  A failing step ends the node's run:
when `transformInput` fails, the run is that step alone; when the route step
fails, the run is the input transform and the route step, and no child is
executed; when the routed child fails, or a child of a fan-out all of whose
children return fails, the run is the input transform, the route step and the
runs of the children concerned, with no `Combine` and no `TransformOutput`
call of the node. -/
theorem Execute_error_propagation (p : PredictorProcess) (w : Oracle) (node : PredictiveUnit)
    (msg : SeldonPayload) :
    (∀ m e, (Execute p w node msg).out = .ret (m, e) →
        (e ≠ none ↔ ∃ c ∈ (Execute p w node msg).log, p.errOf c ≠ none)
          ∧ (∀ s, e = some s → ∃ c ∈ (Execute p w node msg).log, p.errOf c = some s))
      ∧ (∀ t s l, transformInput p node msg = ⟨.ret (t, some s), l⟩ →
          Execute p w node msg = ⟨.ret (t, some s), l⟩
            ∧ ∀ c ∈ l, c = .Predict node.Endpoint.ServiceHost node.Endpoint.ServicePort msg
                ∨ c = .TransformInput node.Endpoint.ServiceHost node.Endpoint.ServicePort msg)
      ∧ (∀ t l₁ k s l₂, transformInput p node msg = ⟨.ret (t, none), l₁⟩ →
          node.Children ≠ [] → route p w node t = ⟨.ret (k, some s), l₂⟩ →
          Execute p w node msg = ⟨.ret (t, some s), l₁ ++ l₂⟩
            ∧ ∀ c ∈ l₂, c = .Route node.Endpoint.ServiceHost node.Endpoint.ServicePort t)
      ∧ (∀ t l₁ k l₂ child cm s, transformInput p node msg = ⟨.ret (t, none), l₁⟩ →
          route p w node t = ⟨.ret (k, none), l₂⟩ → 0 ≤ k →
          node.Children[k.toNat]? = some child →
          (Execute p w child t).out = .ret (cm, some s) →
          Execute p w node msg
            = ⟨.ret (t, some s), l₁ ++ (l₂ ++ (Execute p w child t).log)⟩)
      ∧ (∀ t l₁ l₂, transformInput p node msg = ⟨.ret (t, none), l₁⟩ →
          route p w node t = ⟨.ret (-1, none), l₂⟩ →
          (∀ c ∈ node.Children, (Execute p w c t).out ≠ .panic) →
          (∃ c ∈ node.Children, (Execute p w c t).err ≠ none) →
          ∃ child ∈ node.Children, ∃ s, (Execute p w child t).err = some s
            ∧ Execute p w node msg
              = ⟨.ret (t, some s), l₁ ++ (l₂ ++ fanOutLog p w node t)⟩) := by
  refine ⟨?_, ?_, ?_, ?_, ?_⟩
  · intro m e hout
    have hacc := faithful_Execute p w node msg _ hout
    refine ⟨⟨?_, ?_⟩, hacc.1⟩
    · intro hne
      cases e with
      | none => exact absurd rfl hne
      | some s =>
        rcases hacc.1 s rfl with ⟨c, hc, hce⟩
        exact ⟨c, hc, by simp [hce]⟩
    · rintro ⟨c, hc, hce⟩ hnone
      exact hce (hacc.2 hnone c hc)
  · intro t s l hti
    refine ⟨?_, ?_⟩
    · rw [Execute_eq, hti, Run.bind_ret]
      simp [Run.pure]
    · intro c hc
      apply mem_transformInput_log p node msg c
      rw [hti]; exact hc
  · intro t l₁ k s l₂ hti hne hr
    refine ⟨?_, ?_⟩
    · rw [Execute_eq, hti, Run.bind_ret]
      simp [routeChildren_route_error p w node t k s l₂ hne hr, Run.bind_ret, Run.pure]
    · intro c hc
      apply mem_route_log p w node t c
      rw [hr]; exact hc
  · intro t l₁ k l₂ child cm s hti hr h0 hchild hout
    rw [Execute_eq, hti, Run.bind_ret]
    simp [routeChildren_routed p w node child t k l₂ hr h0 hchild, hout, Run.bind_ret, Run.pure]
  · intro t l₁ l₂ hti hr hret hfail
    rcases hfail with ⟨c₀, hc₀, hc₀e⟩
    have hne : node.Children ≠ [] := List.ne_nil_of_mem hc₀
    rcases firstError_of_children p w node.Children t with
      ⟨_, h₂⟩ | ⟨i, child, s, hc, he, _, hf⟩
    · exact absurd (h₂ c₀ hc₀) hc₀e
    · refine ⟨child, mem_of_getElem?_some hc, s, he, ?_⟩
      rw [Execute_eq, hti, Run.bind_ret]
      simp [routeChildren_fanOut p w node t l₂ hne hr hret, hf, Run.bind_ret, Run.pure]

/-- C8. The code on a combiner over a model whose backend is down and a router
whose backend answers 7, an index outside its two children.  The `Predict`
call of the first child is made and answered with an error, but `Execute`
does not return that error: the second child's goroutine panics at the index,
which ends the process, under every schedule. -/
theorem C8_error_lost_in_panic :
    demo.errOf (.Predict "down" 9000 (json "in")) = some "status code 500"
      ∧ Execute demo firstFirst combinerCrash (json "in")
          = ⟨.panic, [.Predict "down" 9000 (json "in"), .Route "r7" 9000 (json "in")]⟩
      ∧ (∀ w : Oracle, (Execute demo w combinerCrash (json "in")).out = .panic)
      ∧ (∀ w : Oracle, (Execute demo w combinerCrash (json "in")).err = none) :=
  ⟨by decide, by decide, fun _ => rfl, fun _ => rfl⟩

end Executor

namespace Rest

open Executor

/-! ### C9 and C10: the REST client -/

/-- C9. For every model name `n`: under protocol Tensorflow `getMethod` maps
the Predict, TransformInput and TransformOutput paths to
`/v1/models/n:predict`, the Combine path to `/v1/models/n:aggregate` and the
Route path to `/v1/models/n:route`; under protocol Seldon it returns every
method path unchanged. -/
theorem C9_getMethod_paths (smc : JSONRestClient) (n : String) :
    (smc.Protocol = ProtocolTensorflow →
        getMethod smc SeldonPredictPath n = "/v1/models/" ++ n ++ ":predict"
          ∧ getMethod smc SeldonTransformInputPath n = "/v1/models/" ++ n ++ ":predict"
          ∧ getMethod smc SeldonTransformOutputPath n = "/v1/models/" ++ n ++ ":predict"
          ∧ getMethod smc SeldonCombinePath n = "/v1/models/" ++ n ++ ":aggregate"
          ∧ getMethod smc SeldonRoutePath n = "/v1/models/" ++ n ++ ":route")
      ∧ (smc.Protocol = ProtocolSeldon →
          getMethod smc SeldonPredictPath n = "/predict"
            ∧ getMethod smc SeldonTransformInputPath n = "/transform-input"
            ∧ getMethod smc SeldonTransformOutputPath n = "/transform-output"
            ∧ getMethod smc SeldonRoutePath n = "/route"
            ∧ getMethod smc SeldonCombinePath n = "/combine"
            ∧ ∀ method, getMethod smc method n = method) := by
  constructor
  · intro h
    have hne : ¬ (ProtocolTensorflow = ProtocolSeldon) := by decide
    have h₁ : ¬ (SeldonCombinePath = SeldonPredictPath ∨ SeldonCombinePath = SeldonTransformInputPath
        ∨ SeldonCombinePath = SeldonTransformOutputPath) := by decide
    have h₂ : ¬ (SeldonRoutePath = SeldonPredictPath ∨ SeldonRoutePath = SeldonTransformInputPath
        ∨ SeldonRoutePath = SeldonTransformOutputPath) := by decide
    have h₃ : ¬ (SeldonRoutePath = SeldonCombinePath) := by decide
    refine ⟨?_, ?_, ?_, ?_, ?_⟩
    · simp [getMethod, h, hne]
    · simp [getMethod, h, hne]
    · simp [getMethod, h, hne]
    · simp only [getMethod, h, hne, h₁, if_false, if_true]
    · simp only [getMethod, h, hne, h₂, h₃, if_false, if_true]
  · intro h
    have hall : ∀ method, getMethod smc method n = method := by
      intro method; simp [getMethod, h]
    exact ⟨hall _, hall _, hall _, hall _, hall _, hall⟩

/-- C9 on scenario S6: the paths for the model `iris`. -/
theorem C9_getMethod_paths_witness :
    (getMethod ⟨"Tensorflow"⟩ "/predict" "iris" = "/v1/models/iris:predict"
        ∧ getMethod ⟨"Tensorflow"⟩ "/combine" "iris" = "/v1/models/iris:aggregate"
        ∧ getMethod ⟨"Tensorflow"⟩ "/route" "iris" = "/v1/models/iris:route")
      ∧ getMethod ⟨"Seldon"⟩ "/combine" "iris" = "/combine" :=
  have h := (C9_getMethod_paths ⟨"Tensorflow"⟩ "iris").1 rfl
  ⟨⟨h.1, h.2.2.2.1, h.2.2.2.2⟩, ((C9_getMethod_paths ⟨"Seldon"⟩ "iris").2 rfl).2.2.2.2.1⟩

theorem extractStrData_of_all (env : Net) :
    ∀ msgs : List Payload, (∀ m ∈ msgs, isJSON env m.Msg = true) →
      extractStrData env (msgs.map some) = .ret (some (msgs.map fun m => m.Msg))
  | [], _ => rfl
  | m :: ms, h => by
    have hm : isJSON env m.Msg = true := h m (List.mem_cons_self _ _)
    have ih := extractStrData_of_all env ms (fun x hx => h x (List.mem_cons_of_mem _ hx))
    simp [extractStrData, hm, ih]

theorem extractStrData_of_some (env : Net) :
    ∀ msgs : List Payload, (∃ m ∈ msgs, isJSON env m.Msg = false) →
      extractStrData env (msgs.map some) = .ret none
  | [], h => by rcases h with ⟨m, hm, _⟩; cases hm
  | m :: ms, h => by
    cases hm : isJSON env m.Msg with
    | false => simp [extractStrData, hm]
    | true =>
      have h' : ∃ x ∈ ms, isJSON env x.Msg = false := by
        rcases h with ⟨x, hx, hxj⟩
        rcases List.mem_cons.mp hx with rfl | hx
        · rw [hm] at hxj; cases hxj
        · exact ⟨x, hx, hxj⟩
      simp [extractStrData, hm, extractStrData_of_some env ms h']

/-- C10. For every list of (bytes) payloads given to `Combine`: if the body of
some payload is not JSON, `Combine` fails with the not-JSON error and makes no
outbound call; otherwise it makes exactly one outbound call, to the combine
path, whose body is `[` followed by the bodies joined with `,` in the order
given, followed by `]`. -/
theorem C10_Combine_body (env : Net) (smc : JSONRestClient) (modelName host : String)
    (port : Int) (msgs : List Payload) :
    ((∃ m ∈ msgs, isJSON env m.Msg = false) →
        Combine env smc modelName host port (msgs.map some)
          = ⟨.ret (none, some "Data is not JSON"), []⟩)
      ∧ ((∀ m ∈ msgs, isJSON env m.Msg = true) →
          Combine env smc modelName host port (msgs.map some)
              = call env modelName (getMethod smc SeldonCombinePath modelName) host port
                  (some ⟨"[" ++ ",".intercalate (msgs.map fun m => m.Msg) ++ "]", ""⟩)
            ∧ (Combine env smc modelName host port (msgs.map some)).posts
              = [⟨modelName, getMethod smc SeldonCombinePath modelName,
                  ⟨"http", JoinHostPort host (toString port),
                    getMethod smc SeldonCombinePath modelName⟩,
                  "[" ++ ",".intercalate (msgs.map fun m => m.Msg) ++ "]"⟩]) := by
  constructor
  · intro h
    simp [Combine, extractStrData_of_some env msgs h]
  · intro h
    have hc : Combine env smc modelName host port (msgs.map some)
        = call env modelName (getMethod smc SeldonCombinePath modelName) host port
            (some ⟨"[" ++ ",".intercalate (msgs.map fun m => m.Msg) ++ "]", ""⟩) := by
      simp [Combine, extractStrData_of_all env msgs h]
    exact ⟨hc, by rw [hc]; rfl⟩

/-- C10 on scenario S4: two replies are posted as one array, in child order;
and a reply that is not JSON stops `Combine` before any call. -/
theorem C10_Combine_body_witness :
    (Combine demoNet ⟨"Seldon"⟩ "c" "c" 9000 [json "[1]", json "2"]).posts
        = [⟨"c", "/combine", ⟨"http", "c:9000", "/combine"⟩, "[[1],2]"⟩]
      ∧ Combine demoNet ⟨"Seldon"⟩ "c" "c" 9000 [json "[1]", json "x"]
        = ⟨.ret (none, some "Data is not JSON"), []⟩ :=
  ⟨((C10_Combine_body demoNet ⟨"Seldon"⟩ "c" "c" 9000
        [⟨"[1]", "application/json"⟩, ⟨"2", "application/json"⟩]).2 (by decide)).2.trans
      (by decide),
    (C10_Combine_body demoNet ⟨"Seldon"⟩ "c" "c" 9000
        [⟨"[1]", "application/json"⟩, ⟨"x", "application/json"⟩]).1 (by decide)⟩

end Rest

namespace Rest

open Executor

/-! ### C11: the route vector -/

theorem Route_of_reply (env : Net) (lib : Codec) (smc : JSONRestClient)
    (modelName host : String) (port : Int) (req : SeldonPayload) (sp : Payload)
    (h : (call env modelName (getMethod smc SeldonRoutePath modelName) host port req).out
      = .ret (some sp, none)) :
    (Route env lib smc modelName host port req).out =
      match parseRoutes lib sp.Msg with
      | .error err => .ret (0, some err)
      | .ok [] => .panic
      | .ok (first :: _) => .ret (first, none) := by
  simp only [Route, h]
  cases parseRoutes lib sp.Msg with
  | error e => rfl
  | ok routes =>
    cases routes with
    | nil => rfl
    | cons a as => rfl

/-- C11. The code on sample replies to a `Route` call (every reply is the
posted body, with status 200).  A reply that is an array of two integers
gives the first of them, the second being ignored; a reply whose route vector
is empty makes `Route` panic at `routes[0]`: it returns no error. -/
theorem C11_Route_empty_vector_panics :
    demoCodec.seldonRoutes "[1,0]" = none
      ∧ parseRoutes demoCodec "[1,0]" = .ok [1, 0]
      ∧ Route demoNet demoCodec ⟨"Seldon"⟩ "r" "r" 9000 (json "[1,0]")
          = ⟨.ret (1, none), [⟨"r", "/route", ⟨"http", "r:9000", "/route"⟩, "[1,0]"⟩]⟩
      ∧ (call demoNet "r" "/route" "r" 9000 (json "[]")).out = .ret (json "[]", none)
      ∧ parseRoutes demoCodec "[]" = .ok []
      ∧ Route demoNet demoCodec ⟨"Seldon"⟩ "r" "r" 9000 (json "[]")
          = ⟨.panic, [⟨"r", "/route", ⟨"http", "r:9000", "/route"⟩, "[]"⟩]⟩ :=
  ⟨rfl, rfl, by decide, by decide, rfl, by decide⟩

/-! ### C12: the status of the backend's response -/

/-- C12, as amended.  For every response of the backend to a POST, with status
code `s`: when `s` is not 200, `PostHttp` fails with the error that names the
URL and `s`; when `s` is 200 and the body is read, it returns the body
together with the content type of the response. -/
theorem C12_PostHttp_status (env : Net) (url : URL) (msg : String) (response : HttpResponse)
    (h : env.send url msg = .ok response) :
    (response.StatusCode ≠ 200 →
        PostHttp env url msg =
          ("", "", some ("Internal service call failed with to " ++ env.urlString url
            ++ " status code " ++ toString response.StatusCode)))
      ∧ (response.StatusCode = 200 → ∀ b, response.Body = .ok b →
          PostHttp env url msg = (b, response.ContentType, none)) := by
  constructor
  · intro hs
    simp [PostHttp, h, hs]
  · intro hs b hb
    simp [PostHttp, h, hs, hb]

/-- C12, as amended, on sample responses with status 500 and status 200. -/
theorem C12_PostHttp_status_witness :
    PostHttp (statusNet 500) ⟨"http", "h:80", "/predict"⟩ "[1]"
        = ("", "", some "Internal service call failed with to http://h:80/predict status code 500")
      ∧ PostHttp (statusNet 200) ⟨"http", "h:80", "/predict"⟩ "[1]"
        = ("[1]", "application/json", none) :=
  ⟨((C12_PostHttp_status (statusNet 500) ⟨"http", "h:80", "/predict"⟩ "[1]"
        ⟨500, .ok "[1]", ContentTypeJSON⟩ rfl).1 (by decide)).trans (by decide),
    (C12_PostHttp_status (statusNet 200) ⟨"http", "h:80", "/predict"⟩ "[1]"
        ⟨200, .ok "[1]", ContentTypeJSON⟩ rfl).2 rfl "[1]" rfl⟩

/-- C12 as stated fails: a response with status 204, a 2xx code, makes
`PostHttp` fail with the backend error, although its body can be read. -/
theorem C12_counterexample :
    (200 : Int) ≤ 204 ∧ (204 : Int) ≤ 299
      ∧ PostHttp (statusNet 204) ⟨"http", "h:80", "/predict"⟩ "[1]"
        = ("", "", some "Internal service call failed with to http://h:80/predict status code 204") :=
  ⟨by decide, by decide, by decide⟩

/-! ### C13: marshalling and unmarshalling -/

/-- C13, as amended.  For every bytes payload `p`, `Marshall` writes the body
of `p`, and unmarshalling those bytes gives a payload with the same body and
the content type `application/json`: it is `p` itself when that is the
content type of `p`.  For every byte sequence `b`, `Marshall` of
`Unmarshall b` writes exactly `b`. -/
theorem C13_marshall_roundtrip (p : Payload) (b : String) :
    Marshall (some p) = .ret p.Msg
      ∧ Unmarshall p.Msg = (some ⟨p.Msg, ContentTypeJSON⟩, none)
      ∧ (p.ContentType = ContentTypeJSON → Unmarshall p.Msg = (some p, none))
      ∧ (Unmarshall b).2 = none
      ∧ Marshall (Unmarshall b).1 = .ret b := by
  refine ⟨rfl, rfl, ?_, rfl, rfl⟩
  intro h
  obtain ⟨m, ct⟩ := p
  simp only at h
  rw [h]
  rfl

/-- C13, as amended, on a JSON payload. -/
theorem C13_marshall_roundtrip_witness :
    Unmarshall "[1]" = (some ⟨"[1]", "application/json"⟩, none)
      ∧ Marshall (Unmarshall "[1]").1 = .ret "[1]" :=
  have h := C13_marshall_roundtrip ⟨"[1]", "application/json"⟩ "[1]"
  ⟨h.2.2.1 rfl, h.2.2.2.2⟩

/-- C13 as stated fails: a payload whose content type is not
`application/json` comes back from `Marshall` and `Unmarshall` with that
content type replaced. -/
theorem C13_counterexample :
    Marshall (some ⟨"[1]", "text/plain"⟩) = .ret "[1]"
      ∧ Unmarshall "[1]" = (some ⟨"[1]", "application/json"⟩, none)
      ∧ (Unmarshall "[1]").1 ≠ some ⟨"[1]", "text/plain"⟩ :=
  ⟨rfl, rfl, by decide⟩

/-! ### C14: a protocol that is neither Seldon nor Tensorflow -/

theorem getMethod_of_not_seldon (smc : JSONRestClient) (n : String)
    (h : smc.Protocol ≠ ProtocolSeldon) :
    getMethod smc SeldonPredictPath n = "/v1/models/" ++ n ++ ":predict"
      ∧ getMethod smc SeldonTransformInputPath n = "/v1/models/" ++ n ++ ":predict"
      ∧ getMethod smc SeldonTransformOutputPath n = "/v1/models/" ++ n ++ ":predict"
      ∧ getMethod smc SeldonCombinePath n = "/v1/models/" ++ n ++ ":aggregate"
      ∧ getMethod smc SeldonRoutePath n = "/v1/models/" ++ n ++ ":route" := by
  have h₁ : ¬ (SeldonCombinePath = SeldonPredictPath ∨ SeldonCombinePath = SeldonTransformInputPath
      ∨ SeldonCombinePath = SeldonTransformOutputPath) := by decide
  have h₂ : ¬ (SeldonRoutePath = SeldonPredictPath ∨ SeldonRoutePath = SeldonTransformInputPath
      ∨ SeldonRoutePath = SeldonTransformOutputPath) := by decide
  have h₃ : ¬ (SeldonRoutePath = SeldonCombinePath) := by decide
  refine ⟨?_, ?_, ?_, ?_, ?_⟩
  · simp [getMethod, h]
  · simp [getMethod, h]
  · simp [getMethod, h]
  · simp only [getMethod, h, h₁, if_false, if_true]
  · simp only [getMethod, h, h₂, h₃, if_false, if_true]

theorem call_posts (env : Net) (modelName method host : String) (port : Int) (q : Payload) :
    (call env modelName method host port (some q)).posts
      = [⟨modelName, method, ⟨"http", JoinHostPort host (toString port), method⟩, q.Msg⟩] :=
  rfl

theorem Route_posts (env : Net) (lib : Codec) (smc : JSONRestClient)
    (modelName host : String) (port : Int) (req : SeldonPayload) :
    (Route env lib smc modelName host port req).posts
      = (call env modelName (getMethod smc SeldonRoutePath modelName) host port req).posts := by
  unfold Route
  simp only
  split
  · rfl
  · rfl
  · rfl
  · split <;> rfl

/-- C14, as amended.  For every protocol tag other than Seldon and
Tensorflow, `Chain` fails with the unknown-protocol error.  The outbound call
operations do not look for an unknown protocol: `Predict`, `TransformInput`,
`TransformOutput` and `Route` each issue their request, on the path that the
Tensorflow protocol gives them, and so does `Combine` when the bodies are
JSON. -/
theorem C14_unknown_protocol (env : Net) (lib : Codec) (smc : JSONRestClient)
    (modelName host : String) (port : Int) (q : Payload) (msgs : List Payload)
    (h₁ : smc.Protocol ≠ ProtocolSeldon) (h₂ : smc.Protocol ≠ ProtocolTensorflow) :
    (∀ msg, Chain lib smc msg = (none, some ("Unknown protocol " ++ smc.Protocol)))
      ∧ Predict env smc modelName host port (some q)
          = call env modelName ("/v1/models/" ++ modelName ++ ":predict") host port (some q)
      ∧ TransformInput env smc modelName host port (some q)
          = call env modelName ("/v1/models/" ++ modelName ++ ":predict") host port (some q)
      ∧ TransformOutput env smc modelName host port (some q)
          = call env modelName ("/v1/models/" ++ modelName ++ ":predict") host port (some q)
      ∧ (Predict env smc modelName host port (some q)).posts
          = [⟨modelName, "/v1/models/" ++ modelName ++ ":predict",
              ⟨"http", JoinHostPort host (toString port),
                "/v1/models/" ++ modelName ++ ":predict"⟩, q.Msg⟩]
      ∧ (Route env lib smc modelName host port (some q)).posts
          = [⟨modelName, "/v1/models/" ++ modelName ++ ":route",
              ⟨"http", JoinHostPort host (toString port),
                "/v1/models/" ++ modelName ++ ":route"⟩, q.Msg⟩]
      ∧ ((∀ m ∈ msgs, isJSON env m.Msg = true) →
          (Combine env smc modelName host port (msgs.map some)).posts
            = [⟨modelName, "/v1/models/" ++ modelName ++ ":aggregate",
                ⟨"http", JoinHostPort host (toString port),
                  "/v1/models/" ++ modelName ++ ":aggregate"⟩,
                "[" ++ ",".intercalate (msgs.map fun m => m.Msg) ++ "]"⟩]) := by
  have hg := getMethod_of_not_seldon smc modelName h₁
  refine ⟨?_, ?_, ?_, ?_, ?_, ?_, ?_⟩
  · intro msg; simp [Chain, h₁, h₂]
  · rw [Predict, hg.1]
  · rw [TransformInput, hg.2.1]
  · rw [TransformOutput, hg.2.2.1]
  · rw [Predict, hg.1, call_posts]
  · rw [Route_posts, hg.2.2.2.2, call_posts]
  · intro hj
    simp only [Combine, extractStrData_of_all env msgs hj, hg.2.2.2.1]
    rfl

/-- C14, as amended, for the protocol tag `KFServing`. -/
theorem C14_unknown_protocol_witness :
    Chain demoCodec ⟨"KFServing"⟩ (json "[1]") = (none, some ("Unknown protocol " ++ "KFServing"))
      ∧ (Route demoNet demoCodec ⟨"KFServing"⟩ "iris" "h" 80 (json "[1]")).posts
          = [⟨"iris", "/v1/models/" ++ "iris" ++ ":route",
              ⟨"http", JoinHostPort "h" (toString (80 : Int)),
                "/v1/models/" ++ "iris" ++ ":route"⟩, "[1]"⟩] :=
  have h := C14_unknown_protocol demoNet demoCodec ⟨"KFServing"⟩ "iris" "h" 80
    ⟨"[1]", "application/json"⟩ [] (by decide) (by decide)
  ⟨h.1 _, h.2.2.2.2.2.1⟩

/-- C14 as stated fails: under the protocol tag `KFServing`, `Predict` issues
its request (on the Tensorflow path) and returns the backend's reply, with no
error. -/
theorem C14_counterexample :
    (⟨"KFServing"⟩ : JSONRestClient).Protocol ≠ ProtocolSeldon
      ∧ (⟨"KFServing"⟩ : JSONRestClient).Protocol ≠ ProtocolTensorflow
      ∧ Predict demoNet ⟨"KFServing"⟩ "iris" "h" 80 (json "[1]")
        = ⟨.ret (json "[1]", none),
            [⟨"iris", "/v1/models/iris:predict",
              ⟨"http", "h:80", "/v1/models/iris:predict"⟩, "[1]"⟩]⟩ :=
  ⟨by decide, by decide, by decide⟩

end Rest

namespace Executor

/-! ### C15: the payload returned with an error -/

theorem transformInput_returns (p : PredictorProcess) (node : PredictiveUnit)
    (msg : SeldonPayload) : ∃ a, (transformInput p node msg).out = .ret a := by
  rcases faithful_transformInput p node msg with ⟨a, ha, _⟩
  exact ⟨a, ha⟩

theorem transformOutput_returns (p : PredictorProcess) (node : PredictiveUnit)
    (msg : SeldonPayload) : ∃ a, (transformOutput p node msg).out = .ret a := by
  rcases faithful_transformOutput p node msg with ⟨a, ha, _⟩
  exact ⟨a, ha⟩

/-- The outcome of `Execute` in terms of the outcomes of its three steps. -/
theorem Execute_out (p : PredictorProcess) (w : Oracle) (node : PredictiveUnit)
    (msg : SeldonPayload) :
    (Execute p w node msg).out =
      match (transformInput p node msg).out with
      | .panic => .panic
      | .ret (t, some err) => .ret (t, some err)
      | .ret (t, none) =>
        match (routeChildren p w node t).out with
        | .panic => .panic
        | .ret (_, some err) => .ret (t, some err)
        | .ret (c, none) => (transformOutput p node c).out := by
  rw [Execute_eq]
  rcases h₁ : transformInput p node msg with ⟨out₁, l₁⟩
  rcases out₁ with ⟨t, _ | e⟩ | _
  · simp only [Run.bind]
    rcases h₂ : routeChildren p w node t with ⟨out₂, l₂⟩
    rcases out₂ with ⟨c, _ | e⟩ | _ <;> simp [Run.pure]
  · simp [Run.bind, Run.pure]
  · simp [Run.bind]

/-- C15, as amended.  Whenever `Execute` returns an error, the payload
returned with it is fixed by the step of the node that failed: it is the one
the input transform returned with the error; or, when `routeChildren` failed,
the node's own input-transformed payload (the payload `routeChildren`
returned with the error, a failing child's result, is dropped); or the one
the output transform returned with the error. -/
theorem C15_error_payload (p : PredictorProcess) (w : Oracle) (node : PredictiveUnit)
    (msg m : SeldonPayload) (s : String)
    (h : (Execute p w node msg).out = .ret (m, some s)) :
    (transformInput p node msg).out = .ret (m, some s)
      ∨ (∃ cm, (transformInput p node msg).out = .ret (m, none)
          ∧ (routeChildren p w node m).out = .ret (cm, some s))
      ∨ (∃ t c, (transformInput p node msg).out = .ret (t, none)
          ∧ (routeChildren p w node t).out = .ret (c, none)
          ∧ (transformOutput p node c).out = .ret (m, some s)) := by
  rw [Execute_out] at h
  rcases h₁ : (transformInput p node msg).out with ⟨t, _ | e⟩ | _
  · rw [h₁] at h
    simp only at h
    rcases h₂ : (routeChildren p w node t).out with ⟨c, _ | e⟩ | _
    · rw [h₂] at h
      exact Or.inr (Or.inr ⟨t, c, rfl, h₂, h⟩)
    · rw [h₂] at h
      simp only [Outcome.ret.injEq, Prod.mk.injEq, Option.some.injEq] at h
      obtain ⟨rfl, rfl⟩ := h
      exact Or.inr (Or.inl ⟨c, rfl, h₂⟩)
    · rw [h₂] at h
      cases h
  · rw [h₁] at h
    exact Or.inl h
  · rw [h₁] at h
    cases h

/-- C15, as amended, on a transformer whose model is down: the error comes
back with the transformer's payload. -/
theorem C15_error_payload_witness :
    (transformInput demo chainDown (json "in")).out = .ret (json "in/t", some "status code 500")
      ∨ (∃ cm, (transformInput demo chainDown (json "in")).out = .ret (json "in/t", none)
          ∧ (routeChildren demo lastFirst chainDown (json "in/t")).out
            = .ret (cm, some "status code 500"))
      ∨ (∃ t c, (transformInput demo chainDown (json "in")).out = .ret (t, none)
          ∧ (routeChildren demo lastFirst chainDown t).out = .ret (c, none)
          ∧ (transformOutput demo chainDown c).out
            = .ret (json "in/t", some "status code 500")) :=
  C15_error_payload demo lastFirst chainDown (json "in") (json "in/t") "status code 500"
    (by decide)

/-- C15 as stated fails: when the model behind a transformer is down,
`Execute` returns the error together with the transformer's input-transformed
payload, which is not nil. -/
theorem C15_counterexample :
    transformInput demo chainDown (json "in")
        = ⟨.ret (json "in/t", none), [.TransformInput "t" 9000 (json "in")]⟩
      ∧ (routeChildren demo lastFirst chainDown (json "in/t")).out
        = .ret (none, some "status code 500")
      ∧ (Execute demo lastFirst chainDown (json "in")).out
        = .ret (json "in/t", some "status code 500")
      ∧ (Execute demo lastFirst chainDown (json "in")).payload ≠ none :=
  ⟨by decide, by decide, by decide, by decide⟩

/-! ### C16: the role decides before the methods -/

/-- C16. Whatever the methods list of a node contains: with role MODEL the
input side is exactly one `Predict` call (and no `TransformInput` call); with
role TRANSFORMER exactly one `TransformInput` call; with role
OUTPUT_TRANSFORMER the output side is exactly one `TransformOutput` call; with
role ROUTER the route step is exactly one `Route` call; with role COMBINER
the aggregation is exactly one `Combine` call. -/
theorem C16_role_precedence (p : PredictorProcess) (w : Oracle) (node : PredictiveUnit)
    (msg : SeldonPayload) (msgs : List SeldonPayload) :
    (node.Type_ = some .MODEL →
        transformInput p node msg =
          ⟨.ret (p.Client.Predict node.Endpoint.ServiceHost node.Endpoint.ServicePort msg),
            [.Predict node.Endpoint.ServiceHost node.Endpoint.ServicePort msg]⟩)
      ∧ (node.Type_ = some .TRANSFORMER →
        transformInput p node msg =
          ⟨.ret (p.Client.TransformInput node.Endpoint.ServiceHost
              node.Endpoint.ServicePort msg),
            [.TransformInput node.Endpoint.ServiceHost node.Endpoint.ServicePort msg]⟩)
      ∧ (node.Type_ = some .OUTPUT_TRANSFORMER →
        transformOutput p node msg =
          ⟨.ret (p.Client.TransformOutput node.Endpoint.ServiceHost
              node.Endpoint.ServicePort msg),
            [.TransformOutput node.Endpoint.ServiceHost node.Endpoint.ServicePort msg]⟩)
      ∧ (node.Type_ = some .ROUTER →
        route p w node msg =
          ⟨.ret (p.Client.Route node.Endpoint.ServiceHost node.Endpoint.ServicePort msg),
            [.Route node.Endpoint.ServiceHost node.Endpoint.ServicePort msg]⟩)
      ∧ (node.Type_ = some .COMBINER →
        aggregate p node msgs =
          ⟨.ret (p.Client.Combine node.Endpoint.ServiceHost node.Endpoint.ServicePort msgs),
            [.Combine node.Endpoint.ServiceHost node.Endpoint.ServicePort msgs]⟩) := by
  refine ⟨?_, ?_, ?_, ?_, ?_⟩
  · intro h; simp [transformInput, h, PredictorProcess.Predict]
  · intro h; simp [transformInput, h, PredictorProcess.TransformInput]
  · intro h; simp [transformOutput, h, PredictorProcess.TransformOutput]
  · intro h; simp [route, h, PredictorProcess.Route]
  · intro h; simp [aggregate, h, PredictorProcess.Combine]

end Executor

namespace Executor

/-- C16 on a model that declares TRANSFORM_INPUT: only `Predict` is called. -/
theorem C16_role_precedence_witness :
    transformInput demo modelWithInput (json "in")
      = ⟨.ret (json "in/m", none), [.Predict "m" 9000 (json "in")]⟩ :=
  (C16_role_precedence demo lastFirst modelWithInput (json "in") []).1 rfl

end Executor

namespace Rest

open Executor

/-! ### C17: the reply of the HTTP frontend -/

/-- C17, as amended.  When `Execute` succeeds with a payload `q`, the reply to
a predictions request has status 200, the bytes `Marshall` writes for `q` as
its body, and the content type of `q` as its `Content-Type` header, also when
that content type is empty.  When `Execute` fails with an error, the reply
has status 500, `Content-Type` `application/json`, and as body the bytes
`Marshall` writes for `CreateErrorPayload` of the error. -/
theorem C17_predictions_reply (r : SeldonRestApi) (w : Oracle) (body : String)
    (reqPayload : SeldonPayload)
    (hreq : r.Client.Unmarshall body = (reqPayload, none)) :
    (∀ q bytes, (Execute ⟨r.Client.calls⟩ w r.Graph reqPayload).out = .ret (some q, none) →
        r.Client.Marshall (some q) = .ret bytes →
        predictions r w (.ok body) = .ret ⟨q.ContentType, 200, bytes⟩)
      ∧ (∀ m err bytes,
          (Execute ⟨r.Client.calls⟩ w r.Graph reqPayload).out = .ret (m, some err) →
          r.Client.Marshall (r.Client.CreateErrorPayload err) = .ret bytes →
          predictions r w (.ok body) = .ret ⟨"application/json", 500, bytes⟩) := by
  constructor
  · intro q bytes hx hm
    simp [predictions, hreq, hx, respondWithSuccess, hm]
  · intro m err bytes hx hm
    simp [predictions, hreq, hx, respondWithError, hm]

/-- C17, as amended, on scenario S2 and on a transformer whose model is down. -/
theorem C17_predictions_reply_witness :
    predictions ⟨restApi demoClient, chain⟩ lastFirst (.ok "in")
        = .ret ⟨"application/json", 200, "in/t/m"⟩
      ∧ predictions ⟨restApi demoClient, chainDown⟩ lastFirst (.ok "in")
        = .ret ⟨"application/json", 500, "status 500: status code 500"⟩ :=
  ⟨(C17_predictions_reply ⟨restApi demoClient, chain⟩ lastFirst "in" (json "in") rfl).1
      ⟨"in/t/m", "application/json"⟩ "in/t/m" (by decide) rfl,
    (C17_predictions_reply ⟨restApi demoClient, chainDown⟩ lastFirst "in" (json "in") rfl).2
      (json "in/t") "status code 500" "status 500: status code 500" (by decide) (by decide)⟩

/-- C17 as stated fails: when the payload `Execute` returns carries no
content type, the `Content-Type` header of the reply is set to the empty
string, not to `application/json`. -/
theorem C17_counterexample :
    (Execute ⟨bareClient⟩ lastFirst (leaf "m" .MODEL) (json "in")).out
        = .ret (some ⟨"in/m", ""⟩, none)
      ∧ predictions ⟨restApi bareClient, leaf "m" .MODEL⟩ lastFirst (.ok "in")
        = .ret ⟨"", 200, "in/m"⟩ :=
  ⟨by decide, by decide⟩

end Rest

namespace Executor

/-! ### C18 and C19: what reaches `aggregate` -/

theorem aggregate_returns_of_ne_nil (p : PredictorProcess) (node : PredictiveUnit)
    (msgs : List SeldonPayload) (h : msgs ≠ []) : (aggregate p node msgs).out ≠ .panic := by
  unfold aggregate
  split
  · simp [PredictorProcess.Combine]
  · split
    · simp [PredictorProcess.Combine]
    · cases msgs with
      | nil => exact absurd rfl h
      | cons m ms => simp [Run.pure]

theorem route_returns (p : PredictorProcess) (w : Oracle) (node : PredictiveUnit)
    (msg : SeldonPayload) : ∃ a, (route p w node msg).out = .ret a := by
  rcases faithful_route p w node msg with ⟨a, ha, _⟩
  exact ⟨a, ha⟩

/-- A panic of `routeChildren` comes from a route index outside the children
or from a panic of `Execute` on a child. -/
theorem routeChildren_panic (p : PredictorProcess) (w : Oracle) (node : PredictiveUnit)
    (t : SeldonPayload) (h : (routeChildren p w node t).out = .panic) :
    (node.Children ≠ [] ∧ ∃ k l, route p w node t = ⟨.ret (k, none), l⟩
        ∧ (k < -1 ∨ (node.Children.length : Int) ≤ k))
      ∨ ∃ child ∈ node.Children, (Execute p w child t).out = .panic := by
  by_cases hne : node.Children = []
  · rw [routeChildren_leaf p w node t hne] at h
    cases h
  · rcases route_returns p w node t with ⟨⟨k, e⟩, hk⟩
    have hr := run_eta _ _ hk
    cases e with
    | some s =>
      rw [routeChildren_route_error p w node t k s _ hne hr] at h
      cases h
    | none =>
      by_cases hk1 : k = -1
      · subst hk1
        by_cases hp : ∀ c ∈ node.Children, (Execute p w c t).out ≠ .panic
        · exfalso
          rw [routeChildren_fanOut p w node t _ hne hr hp] at h
          split at h
          · cases h
          · exact aggregate_returns_of_ne_nil p node _ (by simpa using hne) h
        · right
          by_contra hcon
          exact hp (fun c hc hcp => hcon ⟨c, hc, hcp⟩)
      · by_cases hin : 0 ≤ k ∧ k < node.Children.length
        · have hlt : k.toNat < node.Children.length := by omega
          have hc : node.Children[k.toNat]? = some node.Children[k.toNat] :=
            List.getElem?_eq_getElem hlt
          rw [routeChildren_routed p w node _ t k _ hr hin.1 hc] at h
          rcases hout : (Execute p w node.Children[k.toNat] t).out with ⟨cm, _ | s⟩ | _
          · rw [hout] at h
            exact absurd h (aggregate_returns_of_ne_nil p node [cm] (by simp))
          · rw [hout] at h
            cases h
          · exact Or.inr ⟨_, List.getElem_mem hlt, hout⟩
        · exact Or.inl ⟨hne, k, _, hr, by omega⟩

/-- Every panic of `Execute` comes from a route index outside the children of
some node of the tree: none comes from `msg[0]` in `aggregate`. -/
theorem Execute_panic (p : PredictorProcess) (w : Oracle) :
    ∀ (node : PredictiveUnit) (msg : SeldonPayload), (Execute p w node msg).out = .panic →
      ∃ n ∈ node.subtree, ∃ (t : SeldonPayload) (k : Int) (l : List Call),
        n.Children ≠ [] ∧ route p w n t = ⟨.ret (k, none), l⟩
          ∧ (k < -1 ∨ (n.Children.length : Int) ≤ k) := by
  intro node
  induction node using PredictiveUnit.induct with
  | step node ih =>
    intro msg h
    rw [Execute_out] at h
    rcases h₁ : (transformInput p node msg).out with ⟨t, _ | e⟩ | _
    · rw [h₁] at h
      simp only at h
      rcases h₂ : (routeChildren p w node t).out with ⟨c, _ | e⟩ | _
      · rw [h₂] at h
        simp only at h
        rcases transformOutput_returns p node c with ⟨a, ha⟩
        rw [ha] at h
        cases h
      · rw [h₂] at h
        cases h
      · rcases routeChildren_panic p w node t h₂ with ⟨hne, k, l, hr, hk⟩ | ⟨child, hc, hp⟩
        · exact ⟨node, by rw [subtree_eq]; exact List.mem_cons_self _ _, t, k, l, hne, hr, hk⟩
        · rcases ih child hc t hp with ⟨n, hn, rest⟩
          exact ⟨n, mem_subtree_of_child node child n hc hn, rest⟩
    · rw [h₁] at h
      cases h
    · rcases transformInput_returns p node msg with ⟨a, ha⟩
      rw [ha] at h₁
      cases h₁

/-- C18. On a non-empty sequence `aggregate` does not panic.  `routeChildren`
reaches `aggregate` in two places: after a fan-out without error, with the
children's results, one per child, of which there is at least one; and after
a routed child without error, with that child's result alone.  Hence in every
run of `Execute` on a tree a panic can only come from a route index outside
the children of a node, never from `msg[0]` in `aggregate`. -/
theorem C18_aggregate_nonempty (p : PredictorProcess) (w : Oracle) (node : PredictiveUnit)
    (t : SeldonPayload) :
    (∀ msgs : List SeldonPayload, msgs ≠ [] → (aggregate p node msgs).out ≠ .panic)
      ∧ (∀ l, node.Children ≠ [] → route p w node t = ⟨.ret (-1, none), l⟩ →
          (∀ c ∈ node.Children, ∃ m, (Execute p w c t).out = .ret (m, none)) →
          (routeChildren p w node t).out
              = (aggregate p node (node.Children.map fun c => (Execute p w c t).payload)).out
            ∧ (node.Children.map fun c => (Execute p w c t).payload).length
              = node.Children.length
            ∧ 1 ≤ node.Children.length)
      ∧ (∀ k l child cm, route p w node t = ⟨.ret (k, none), l⟩ → 0 ≤ k →
          node.Children[k.toNat]? = some child →
          (Execute p w child t).out = .ret (cm, none) →
          (routeChildren p w node t).out = (aggregate p node [cm]).out
            ∧ [cm].length = 1)
      ∧ ((Execute p w node t).out = .panic →
          ∃ n ∈ node.subtree, ∃ (m : SeldonPayload) (k : Int) (l : List Call),
            n.Children ≠ [] ∧ route p w n m = ⟨.ret (k, none), l⟩
              ∧ (k < -1 ∨ (n.Children.length : Int) ≤ k)) := by
  refine ⟨aggregate_returns_of_ne_nil p node, ?_, ?_, Execute_panic p w node t⟩
  · intro l hne hr hok
    have hret : ∀ c ∈ node.Children, (Execute p w c t).out ≠ .panic := by
      intro c hc
      rcases hok c hc with ⟨m, hm⟩
      simp [hm]
    have herr : ∀ c ∈ node.Children, (Execute p w c t).err = none := by
      intro c hc
      rcases hok c hc with ⟨m, hm⟩
      simp [Run.err, hm]
    refine ⟨?_, by simp, List.length_pos.mpr hne⟩
    rw [routeChildren_fanOut p w node t l hne hr hret]
    rcases firstError_of_children p w node.Children t with ⟨h₁, _⟩ | ⟨i, child, e, hc, he, _⟩
    · rw [h₁]
    · rw [herr child (mem_of_getElem?_some hc)] at he
      cases he
  · intro k l child cm hr h0 hchild hout
    rw [routeChildren_routed p w node child t k l hr h0 hchild, hout]
    exact ⟨rfl, rfl⟩

/-- C18 on scenario S4 (a fan-out over two models) and on scenario S3 (a
router that selects its second child). -/
theorem C18_aggregate_nonempty_witness :
    ((routeChildren demo lastFirst combiner (json "in")).out
          = (aggregate demo combiner
              (combiner.Children.map fun c => (Execute demo lastFirst c (json "in")).payload)).out
        ∧ (combiner.Children.map fun c => (Execute demo lastFirst c (json "in")).payload).length
          = combiner.Children.length
        ∧ 1 ≤ combiner.Children.length)
      ∧ ((routeChildren demo lastFirst (router "r1") (json "in")).out
          = (aggregate demo (router "r1") [json "in/b"]).out
        ∧ [json "in/b"].length = 1) :=
  ⟨(C18_aggregate_nonempty demo lastFirst combiner (json "in")).2.1 []
      (by simp [combiner, PredictiveUnit.Children]) (by decide)
      (by
        intro c hc
        simp only [combiner, PredictiveUnit.Children, List.mem_cons, List.mem_singleton,
          List.not_mem_nil, or_false] at hc
        rcases hc with rfl | rfl
        · exact ⟨json "in/m1", by decide⟩
        · exact ⟨json "in/m2", by decide⟩),
    (C18_aggregate_nonempty demo lastFirst (router "r1") (json "in")).2.2.1 1
      [.Route "r1" 9000 (json "in")] (leaf "b" .MODEL) (json "in/b")
      (by decide) (by decide) rfl (by decide)⟩

/-- C19. When a node is not a COMBINER and does not declare AGGREGATE, has
children `c₀ :: rest`, its route step yields -1 and every child's `Execute`
succeeds, `routeChildren` returns exactly the result of `Execute` on `c₀`;
its backend calls are those of the route step followed by those of the runs
of `Execute` on all the children (interleaved; the other results are
dropped), with no `Combine` call of the node. -/
theorem C19_first_child_result (p : PredictorProcess) (w : Oracle) (node c₀ : PredictiveUnit)
    (rest : List PredictiveUnit) (t : SeldonPayload) (l : List Call)
    (hT : node.Type_ ≠ some .COMBINER) (hM : hasMethod .AGGREGATE node.Methods = false)
    (hC : node.Children = c₀ :: rest)
    (hr : route p w node t = ⟨.ret (-1, none), l⟩)
    (hok : ∀ c ∈ node.Children, ∃ m, (Execute p w c t).out = .ret (m, none)) :
    (routeChildren p w node t).out = (Execute p w c₀ t).out
      ∧ (∃ fan : List Call, (routeChildren p w node t).log = l ++ fan
          ∧ fan.Perm ((node.Children.map fun c => (Execute p w c t).log).flatten)
          ∧ ∀ c ∈ node.Children, ((Execute p w c t).log).Sublist fan)
      ∧ (∀ c ∈ (routeChildren p w node t).log,
          c ∈ l ∨ ∃ child ∈ node.Children, c ∈ (Execute p w child t).log) := by
  have hne : node.Children ≠ [] := by rw [hC]; simp
  have hret : ∀ c ∈ node.Children, (Execute p w c t).out ≠ .panic := by
    intro c hc
    rcases hok c hc with ⟨m, hm⟩
    simp [hm]
  have herr : ∀ c ∈ node.Children, (Execute p w c t).err = none := by
    intro c hc
    rcases hok c hc with ⟨m, hm⟩
    simp [Run.err, hm]
  have hagg : ∀ m ms, aggregate p node (m :: ms) = ⟨.ret (m, none), []⟩ := by
    intro m ms
    unfold aggregate
    split
    · rename_i h; exact absurd h hT
    · simp [hM, Run.pure]
  have hrc : routeChildren p w node t =
      ⟨.ret ((Execute p w c₀ t).payload, none), l ++ fanOutLog p w node t⟩ := by
    rw [routeChildren_fanOut p w node t l hne hr hret]
    rcases firstError_of_children p w node.Children t with ⟨h₁, _⟩ | ⟨i, child, e, hc, he, _⟩
    · rw [h₁]
      simp only [hC, List.map_cons, hagg, List.append_nil]
    · rw [herr child (mem_of_getElem?_some hc)] at he
      cases he
  have h₀ : (Execute p w c₀ t).out = .ret ((Execute p w c₀ t).payload, none) := by
    rcases hok c₀ (by rw [hC]; exact List.mem_cons_self _ _) with ⟨m, hm⟩
    simp [Run.payload, hm]
  refine ⟨by rw [hrc, h₀], ⟨fanOutLog p w node t, by rw [hrc],
    fanOutLog_perm p w node t hret, fanOutLog_sublist p w node t hret⟩, ?_⟩
  intro c hc
  rw [hrc] at hc
  rcases List.mem_append.mp hc with hc | hc
  · exact Or.inl hc
  · exact Or.inr (mem_fanOutLog p w node t c hc)

/-- C19 on a node without role over two chains of a transformer and a model,
the calls of the two chains interleaving: the result of the first chain is
returned, after all four calls. -/
theorem C19_first_child_result_witness :
    (routeChildren demo zigzag twoChains (json "in")).out = .ret (json "in/ta/ma", none)
      ∧ (routeChildren demo zigzag twoChains (json "in")).log
        = [.TransformInput "ta" 9000 (json "in"), .TransformInput "tb" 9000 (json "in"),
            .Predict "mb" 9000 (json "in/tb"), .Predict "ma" 9000 (json "in/ta")] :=
  have h := C19_first_child_result demo zigzag twoChains (chainOn "ta" "ma")
    [chainOn "tb" "mb"] (json "in") [] (by decide) rfl rfl (by decide)
    (by
      intro c hc
      simp only [twoChains, PredictiveUnit.Children, List.mem_cons, List.mem_singleton,
        List.not_mem_nil, or_false] at hc
      rcases hc with rfl | rfl
      · exact ⟨json "in/ta/ma", by decide⟩
      · exact ⟨json "in/tb/mb", by decide⟩)
  ⟨h.1.trans (by decide), by decide⟩

end Executor

namespace Grpc

open Executor

/-! ### C20: the gRPC frontend and a nil payload -/

/-- C20. The code at the failing input: the graph is a single model whose
backend is down, so that `Execute` returns the error of `Predict` together
with the nil payload the client returned; the frontend's `Predict` then calls
`GetPayload` on that nil payload and panics, instead of returning the error.
(When the payload that comes with the error is not nil, the error is
returned: the second sample.) -/
theorem C20_Predict_nil_payload_panics :
    demoClient.Predict "down" 9000 (some ⟨"in", ""⟩) = (none, some "status code 500")
      ∧ (Execute ⟨demoClient⟩ lastFirst (leaf "down" .MODEL) (some ⟨"in", ""⟩)).out
        = .ret (none, some "status code 500")
      ∧ Predict ⟨demoClient, leaf "down" .MODEL⟩ lastFirst "in" = .panic
      ∧ Predict ⟨demoClient, chainDown⟩ lastFirst "in" = .ret ("in/t", some "status code 500") :=
  ⟨by decide, by decide, by decide, by decide⟩

end Grpc
